import Mathlib

/-!
Verification of the taskcards-monitor snapshot reconciliation engine.

The definitions below are a shallow embedding of the Python sources:
* `monitor.py` — `BoardState` normalization, `BoardMonitor` change detection;
* `changes.py` — the typed `ChangeSet` dataclasses and their dict round trip;
* `models.py` together with the spec's §4.5 — the temporal store (the
  versioning write itself is not part of the sources, so it is modelled
  from the spec where indicated).

Python dictionaries are embedded as association lists with
insertion-order-preserving, last-write-wins update (`dinsert`), which is
exactly CPython's dict behaviour; iteration over a dict (or over a set of
its keys) is embedded as iteration over the association list.
-/

namespace TaskcardsMonitor

/-! ## Python dict machinery -/

/-- Insert into an association list with Python-dict semantics: an existing
key keeps its position and gets the new value, a fresh key is appended. -/
def dinsert {K V : Type} [DecidableEq K] : List (K × V) → K → V → List (K × V)
  | [], k, v => [(k, v)]
  | (k', v') :: rest, k, v =>
    if k' = k then (k, v) :: rest else (k', v') :: dinsert rest k v

/-- Dictionary lookup (keys are unique in a well-formed dict, so the first
match is the only match). -/
def dlookup {K V : Type} [DecidableEq K] (l : List (K × V)) (k : K) : Option V :=
  (l.find? (fun e => e.1 = k)).map (·.2)

/-- Lookup with a default, i.e. Python's `d.get(k, default)`. -/
def dlookupD {K V : Type} [DecidableEq K] (l : List (K × V)) (k : K) (default : V) : V :=
  (dlookup l k).getD default

/-- The keys of an association list, in order. -/
def dkeys {K V : Type} (l : List (K × V)) : List K :=
  l.map (·.1)

/-- Python's `k in d`. -/
def containsKey {K V : Type} [DecidableEq K] (l : List (K × V)) (k : K) : Bool :=
  l.any (fun e => e.1 = k)

/-- Builds the dict `{key a: val a for a in l}` (a Python dict
comprehension: last write wins on key collisions). -/
def byKey {α K V : Type} [DecidableEq K] (l : List α) (key : α → K) (val : α → V) :
    List (K × V) :=
  l.foldl (fun acc a => dinsert acc (key a) (val a)) []

/-- The last element of `l` satisfying `p`, used to state the last-write-wins
semantics of `byKey`. -/
def find_last {α : Type} (p : α → Bool) : List α → Option α
  | [] => none
  | a :: l =>
    match find_last p l with
    | some b => some b
    | none => if p a then some a else none

/-! ## Data model (`monitor.py`)

`BoardState.columns` embeds the Python dict mapping column id to column
info; `BoardState.cards` the dict mapping card id to card info. -/

/-- A normalized column: `{"name": ..., "position": ..., "color": ...}`. -/
structure ColInfo where
  name : String
  position : Int
  color : Option String
deriving DecidableEq, Repr

/-- A normalized card:
`{"title": ..., "column_id": ..., "position": ..., "description": ...}`. -/
structure CardInfo where
  title : String
  column_id : Option String
  position : Option Int
  description : String
deriving DecidableEq, Repr

/-- `BoardState`: the normalized snapshot held by `monitor.py`. -/
structure BoardState where
  columns : List (String × ColInfo)
  cards : List (String × CardInfo)
deriving DecidableEq, Repr

/-- `ColumnChange` dataclass (a column that was added or removed). -/
structure ColumnChange where
  id : String
  name : String
  position : Int
deriving DecidableEq, Repr

/-- `ColumnRename` dataclass. -/
structure ColumnRename where
  id : String
  old_name : String
  new_name : String
  position : Int
deriving DecidableEq, Repr

/-- `ColumnMove` dataclass. -/
structure ColumnMove where
  id : String
  name : String
  old_position : Int
  new_position : Int
deriving DecidableEq, Repr

/-- `CardChange` dataclass (a card that was added or removed). -/
structure CardChange where
  id : String
  title : String
  column : String
deriving DecidableEq, Repr

/-- `CardRename` dataclass. -/
structure CardRename where
  id : String
  old_title : String
  new_title : String
  column : String
deriving DecidableEq, Repr

/-- `CardMove` dataclass. -/
structure CardMove where
  id : String
  title : String
  from_column : String
  to_column : String
deriving DecidableEq, Repr

/-- `BoardChanges` dataclass: container for all detected board changes. -/
structure BoardChanges where
  is_first_run : Bool := false
  columns_count : Int := 0
  cards_count : Int := 0
  columns_added : List ColumnChange := []
  columns_removed : List ColumnChange := []
  columns_renamed : List ColumnRename := []
  columns_moved : List ColumnMove := []
  cards_added : List CardChange := []
  cards_removed : List CardChange := []
  cards_renamed : List CardRename := []
  cards_moved : List CardMove := []
deriving DecidableEq, Repr

/-! ## Snapshot normalization (`BoardState._extract_columns` / `_extract_cards`)

The raw payload is loosely typed: every field may be absent. Python's
`if col_id:` drops both a missing id and an empty-string id. -/

/-- One raw entry of `data["lists"]`. -/
structure RawColumn where
  id : Option String
  name : Option String
  position : Option Int
  color : Option String
deriving DecidableEq, Repr

/-- A raw `kanbanPosition` object. `none` at the card level models a
missing, null or empty (falsy) `kanbanPosition`. -/
structure RawKanbanPos where
  listId : Option String
  position : Option Int
deriving DecidableEq, Repr

/-- One raw entry of `data["cards"]`. -/
structure RawCard where
  id : Option String
  title : Option String
  description : Option String
  kanbanPosition : Option RawKanbanPos
deriving DecidableEq, Repr

/-- The raw board payload (the fields `_extract_columns`/`_extract_cards`
read; `none` models a missing key). -/
structure RawBoard where
  lists : Option (List RawColumn)
  cards : Option (List RawCard)
deriving DecidableEq, Repr

/-- `BoardState._extract_columns`. -/
def extract_columns (data : RawBoard) : List (String × ColInfo) :=
  match data.lists with
  | none => []
  | some ls =>
    ls.foldl
      (fun acc col =>
        match col.id with
        | some cid =>
          if cid ≠ "" then
            dinsert acc cid ⟨col.name.getD "", col.position.getD 0, col.color⟩
          else acc
        | none => acc)
      []

/-- `BoardState._extract_cards`. -/
def extract_cards (data : RawBoard) : List (String × CardInfo) :=
  match data.cards with
  | none => []
  | some cs =>
    cs.foldl
      (fun acc card =>
        match card.id with
        | some cid =>
          if cid ≠ "" then
            let column_id := match card.kanbanPosition with
              | some kp => kp.listId
              | none => none
            let position := match card.kanbanPosition with
              | some kp => kp.position
              | none => none
            dinsert acc cid
              ⟨card.title.getD "", column_id, position, card.description.getD ""⟩
          else acc
        | none => acc)
      []

/-- `BoardState.__init__`: normalize a raw payload. -/
def board_state_of_raw (data : RawBoard) : BoardState :=
  ⟨extract_columns data, extract_cards data⟩

/-! ## Identity reconciliation (`BoardMonitor`)

`_build_column_name_mappings` returns the dict
`{data["name"]: (col_id, data) for col_id, data in state.columns.items()}`
plus its key set; the key set is embedded as the dict itself (its keys are
the set's elements, iterated in insertion order). -/

/-- `BoardMonitor._build_column_name_mappings`: column name → (id, info). -/
def column_name_map (state : BoardState) : List (String × (String × ColInfo)) :=
  byKey state.columns (fun e => e.2.name) (fun e => e)

/-- Value stored by `_build_card_title_mapping` under a card title. -/
structure CardTitleInfo where
  id : String
  column_id : Option String
  column_name : String
  data : CardInfo
deriving DecidableEq, Repr

/-- The resolved column name of a card:
`state.columns.get(col_id, {}).get("name", "Unknown")`. -/
def resolved_column_name (state : BoardState) (col_id : Option String) : String :=
  match col_id with
  | none => "Unknown"
  | some cid =>
    match dlookup state.columns cid with
    | some info => info.name
    | none => "Unknown"

/-- `BoardMonitor._build_card_title_mapping`: card title → info. -/
def card_title_map (state : BoardState) : List (String × CardTitleInfo) :=
  byKey state.cards
    (fun e => e.2.title)
    (fun e => ⟨e.1, e.2.column_id, resolved_column_name state e.2.column_id, e.2⟩)

/-- `BoardMonitor._filter_renamed_items`. -/
def filter_renamed_items {α : Type} (items : List α) (renamed_names : List String)
    (name_of : α → String) : List α :=
  if renamed_names.isEmpty then items
  else items.filter (fun item => ¬ (name_of item) ∈ renamed_names)

/-- The column-name entries present only in the current snapshot
(iteration over `curr_name_set - prev_name_set` with lookup in
`curr_names`). -/
def added_col_entries (previous current : BoardState) :
    List (String × (String × ColInfo)) :=
  (column_name_map current).filter
    (fun e => ¬ containsKey (column_name_map previous) e.1)

/-- The column-name entries present only in the previous snapshot. -/
def removed_col_entries (previous current : BoardState) :
    List (String × (String × ColInfo)) :=
  (column_name_map previous).filter
    (fun e => ¬ containsKey (column_name_map current) e.1)

/-- The pre-reclassification `columns_added` list. -/
def columns_added_pre (previous current : BoardState) : List ColumnChange :=
  (added_col_entries previous current).map (fun e => ⟨e.2.1, e.1, e.2.2.position⟩)

/-- The pre-reclassification `columns_removed` list. -/
def columns_removed_pre (previous current : BoardState) : List ColumnChange :=
  (removed_col_entries previous current).map (fun e => ⟨e.2.1, e.1, e.2.2.position⟩)

/-- `added_by_position`: position → (name, id) over the added columns. -/
def added_by_position (previous current : BoardState) :
    List (Int × (String × String)) :=
  byKey (added_col_entries previous current) (fun e => e.2.2.position)
    (fun e => (e.1, e.2.1))

/-- `removed_by_position`: position → (name, id) over the removed columns. -/
def removed_by_position (previous current : BoardState) :
    List (Int × (String × String)) :=
  byKey (removed_col_entries previous current) (fun e => e.2.2.position)
    (fun e => (e.1, e.2.1))

/-- Column names common to both snapshots, paired with the previous entry
(iteration over `prev_name_set & curr_name_set`). -/
def common_col_entries (previous current : BoardState) :
    List (String × (String × ColInfo)) :=
  (column_name_map previous).filter
    (fun e => containsKey (column_name_map current) e.1)

/-- `columns_moved`: common columns whose position changed. -/
def columns_moved_of (previous current : BoardState) : List ColumnMove :=
  (common_col_entries previous current).filterMap
    (fun e =>
      match dlookup (column_name_map current) e.1 with
      | some (curr_id, curr_col) =>
        if e.2.2.position ≠ curr_col.position then
          some ⟨curr_id, e.1, e.2.2.position, curr_col.position⟩
        else none
      | none => none)

/-- `rename_positions`: positions where both a remove and an add occurred. -/
def rename_positions (previous current : BoardState) : List Int :=
  (dkeys (removed_by_position previous current)).filter
    (fun pos => containsKey (added_by_position previous current) pos)

/-- `columns_renamed`: a shared position is a rename exactly when the
removed and the added entry carry the same column id. -/
def columns_renamed_of (previous current : BoardState) : List ColumnRename :=
  (rename_positions previous current).filterMap
    (fun pos =>
      match dlookup (removed_by_position previous current) pos,
            dlookup (added_by_position previous current) pos with
      | some (old_name, old_id), some (new_name, new_id) =>
        if old_id = new_id then some ⟨new_id, old_name, new_name, pos⟩ else none
      | _, _ => none)

/-- `renamed_old_names` (a Python set, embedded as the list of members). -/
def renamed_old_names (previous current : BoardState) : List String :=
  (columns_renamed_of previous current).map (·.old_name)

/-- `renamed_new_names`. -/
def renamed_new_names (previous current : BoardState) : List String :=
  (columns_renamed_of previous current).map (·.new_name)

/-- Final `columns_added` after removing reclassified renames. -/
def columns_added_of (previous current : BoardState) : List ColumnChange :=
  filter_renamed_items (columns_added_pre previous current)
    (renamed_new_names previous current) (·.name)

/-- Final `columns_removed` after removing reclassified renames. -/
def columns_removed_of (previous current : BoardState) : List ColumnChange :=
  filter_renamed_items (columns_removed_pre previous current)
    (renamed_old_names previous current) (·.name)

/-! Card change detection (`BoardMonitor._detect_card_changes`). -/

/-- The card-title entries present only in the previous snapshot. -/
def removed_card_entries (previous current : BoardState) :
    List (String × CardTitleInfo) :=
  (card_title_map previous).filter
    (fun e => ¬ containsKey (card_title_map current) e.1)

/-- The card-title entries present only in the current snapshot. -/
def added_card_entries (previous current : BoardState) :
    List (String × CardTitleInfo) :=
  (card_title_map current).filter
    (fun e => ¬ containsKey (card_title_map previous) e.1)

/-- Pre-reclassification `cards_removed`. -/
def cards_removed_pre (previous current : BoardState) : List CardChange :=
  (removed_card_entries previous current).map (fun e => ⟨e.2.id, e.1, e.2.column_name⟩)

/-- Pre-reclassification `cards_added`. -/
def cards_added_pre (previous current : BoardState) : List CardChange :=
  (added_card_entries previous current).map (fun e => ⟨e.2.id, e.1, e.2.column_name⟩)

/-- `removed_cards_by_id`: card id → (title, info) over removed cards. -/
def removed_cards_by_id (previous current : BoardState) :
    List (String × (String × CardTitleInfo)) :=
  byKey (removed_card_entries previous current) (fun e => e.2.id) (fun e => e)

/-- `added_cards_by_id`: card id → (title, info) over added cards. -/
def added_cards_by_id (previous current : BoardState) :
    List (String × (String × CardTitleInfo)) :=
  byKey (added_card_entries previous current) (fun e => e.2.id) (fun e => e)

/-- `prev_col_name_to_curr_name`: identity on common column names, then
old name → new name for every detected column rename. -/
def prev_col_name_to_curr_name (previous current : BoardState) :
    List (String × String) :=
  let base := byKey (common_col_entries previous current) (fun e => e.1) (fun e => e.1)
  (columns_renamed_of previous current).foldl
    (fun acc r => dinsert acc r.old_name r.new_name) base

/-- Card titles common to both snapshots, paired with the previous info. -/
def common_card_entries (previous current : BoardState) :
    List (String × CardTitleInfo) :=
  (card_title_map previous).filter
    (fun e => containsKey (card_title_map current) e.1)

/-- `cards_moved`: a common card is moved only when its current column name
differs from its previous column name mapped through the rename map. -/
def cards_moved_of (previous current : BoardState) : List CardMove :=
  (common_card_entries previous current).filterMap
    (fun e =>
      match dlookup (card_title_map current) e.1 with
      | some curr_info =>
        let expected :=
          dlookupD (prev_col_name_to_curr_name previous current)
            e.2.column_name e.2.column_name
        if curr_info.column_name ≠ expected then
          some ⟨curr_info.id, e.1, e.2.column_name, curr_info.column_name⟩
        else none
      | none => none)

/-- `renamed_card_ids`: ids removed under one title and added under another. -/
def renamed_card_ids (previous current : BoardState) : List String :=
  (dkeys (removed_cards_by_id previous current)).filter
    (fun cid => containsKey (added_cards_by_id previous current) cid)

/-- `cards_renamed`: an id shared between removed and added cards is a
rename exactly when the column id is unchanged. -/
def cards_renamed_of (previous current : BoardState) : List CardRename :=
  (renamed_card_ids previous current).filterMap
    (fun cid =>
      match dlookup (removed_cards_by_id previous current) cid,
            dlookup (added_cards_by_id previous current) cid with
      | some (old_title, _old_info), some (new_title, new_info) =>
        if _old_info.column_id = new_info.column_id then
          some ⟨cid, old_title, new_title, new_info.column_name⟩
        else none
      | _, _ => none)

/-- `renamed_old_titles`. -/
def renamed_old_titles (previous current : BoardState) : List String :=
  (cards_renamed_of previous current).map (·.old_title)

/-- `renamed_new_titles`. -/
def renamed_new_titles (previous current : BoardState) : List String :=
  (cards_renamed_of previous current).map (·.new_title)

/-- Final `cards_added`. -/
def cards_added_of (previous current : BoardState) : List CardChange :=
  filter_renamed_items (cards_added_pre previous current)
    (renamed_new_titles previous current) (·.title)

/-- Final `cards_removed`. -/
def cards_removed_of (previous current : BoardState) : List CardChange :=
  filter_renamed_items (cards_removed_pre previous current)
    (renamed_old_titles previous current) (·.title)

/-- `BoardMonitor.detect_changes`: the assembled changeset, or a first-run
marker carrying only the entity counts when there is no previous state. -/
def detect_changes (current : BoardState) (previous : Option BoardState) :
    BoardChanges :=
  match previous with
  | none =>
    { is_first_run := true
      columns_count := current.columns.length
      cards_count := current.cards.length }
  | some prev =>
    { is_first_run := false
      columns_added := columns_added_of prev current
      columns_removed := columns_removed_of prev current
      columns_renamed := columns_renamed_of prev current
      columns_moved := columns_moved_of prev current
      cards_added := cards_added_of prev current
      cards_removed := cards_removed_of prev current
      cards_renamed := cards_renamed_of prev current
      cards_moved := cards_moved_of prev current }

/-! ## JSON values

A small JSON model used for the dict (de)serialization code of
`changes.py` and for the persisted state file of `monitor.py`. A Python
dict is a `List (String × JValue)`. -/

inductive JValue where
  | null : JValue
  | bool : Bool → JValue
  | int : Int → JValue
  | str : String → JValue
  | arr : List JValue → JValue
  | obj : List (String × JValue) → JValue

/-- `data.get(k, "")` for a string-typed field. A value of the wrong type
never arises from this module's own `to_dict` output. -/
def getStr (fs : List (String × JValue)) (k : String) : String :=
  match dlookup fs k with
  | some (JValue.str s) => s
  | _ => ""

/-- `data.get(k)` for a nullable string field. -/
def getOptStr (fs : List (String × JValue)) (k : String) : Option String :=
  match dlookup fs k with
  | some (JValue.str s) => some s
  | _ => none

/-- `data.get(k)` for a nullable int field. -/
def getOptInt (fs : List (String × JValue)) (k : String) : Option Int :=
  match dlookup fs k with
  | some (JValue.int n) => some n
  | _ => none

/-- `data.get(k, False)`. -/
def getBool (fs : List (String × JValue)) (k : String) : Bool :=
  match dlookup fs k with
  | some (JValue.bool b) => b
  | _ => false

/-- `data.get(k, 0)`. -/
def getInt (fs : List (String × JValue)) (k : String) : Int :=
  match dlookup fs k with
  | some (JValue.int n) => n
  | _ => 0

/-- `data.get(k, [])`. -/
def getArr (fs : List (String × JValue)) (k : String) : List JValue :=
  match dlookup fs k with
  | some (JValue.arr xs) => xs
  | _ => []

/-- Serialize an optional string (`None` → JSON null). -/
def optStr : Option String → JValue
  | some s => JValue.str s
  | none => JValue.null

/-- Serialize an optional int (`None` → JSON null). -/
def optInt : Option Int → JValue
  | some n => JValue.int n
  | none => JValue.null

/-! ## `changes.py` dataclasses -/

/-- `AttachmentData`. -/
structure AttachmentData where
  id : String
  filename : String
  download_link : String
  mime_type : Option String := none
  length : Option Int := none
deriving DecidableEq, Repr

/-- `AttachmentData.to_dict`. -/
def AttachmentData.to_dict (a : AttachmentData) : List (String × JValue) :=
  [("id", JValue.str a.id), ("filename", JValue.str a.filename),
   ("downloadLink", JValue.str a.download_link), ("mimetype", optStr a.mime_type),
   ("length", optInt a.length)]

/-- `AttachmentData.from_dict`. -/
def AttachmentData.from_dict (fs : List (String × JValue)) : AttachmentData :=
  ⟨getStr fs "id", getStr fs "filename", getStr fs "downloadLink",
   getOptStr fs "mimetype", getOptInt fs "length"⟩

/-- Decode one element of an attachment array. The Python code assumes each
element is a dict; a non-dict element is decoded as the empty dict (that
case never arises from `to_dict` output). -/
def attachmentOfJValue : JValue → AttachmentData
  | JValue.obj fs => AttachmentData.from_dict fs
  | _ => AttachmentData.from_dict []

/-- `CardAdded`. -/
structure CardAdded where
  id : String
  title : String
  description : String
  link : String
  column : Option String
  attachments : List AttachmentData := []
deriving DecidableEq, Repr

/-- `CardAdded.to_dict`. -/
def CardAdded.to_dict (c : CardAdded) : List (String × JValue) :=
  [("id", JValue.str c.id), ("title", JValue.str c.title),
   ("description", JValue.str c.description), ("link", JValue.str c.link),
   ("column", optStr c.column),
   ("attachments", JValue.arr (c.attachments.map (fun a => JValue.obj a.to_dict)))]

/-- `CardAdded.from_dict`. -/
def CardAdded.from_dict (fs : List (String × JValue)) : CardAdded :=
  ⟨getStr fs "id", getStr fs "title", getStr fs "description", getStr fs "link",
   getOptStr fs "column", (getArr fs "attachments").map attachmentOfJValue⟩

/-- `CardRemoved`. -/
structure CardRemoved where
  id : String
  title : String
  description : String
  link : String
  column : Option String
  attachments : List AttachmentData := []
deriving DecidableEq, Repr

/-- `CardRemoved.to_dict`. -/
def CardRemoved.to_dict (c : CardRemoved) : List (String × JValue) :=
  [("id", JValue.str c.id), ("title", JValue.str c.title),
   ("description", JValue.str c.description), ("link", JValue.str c.link),
   ("column", optStr c.column),
   ("attachments", JValue.arr (c.attachments.map (fun a => JValue.obj a.to_dict)))]

/-- `CardRemoved.from_dict`. -/
def CardRemoved.from_dict (fs : List (String × JValue)) : CardRemoved :=
  ⟨getStr fs "id", getStr fs "title", getStr fs "description", getStr fs "link",
   getOptStr fs "column", (getArr fs "attachments").map attachmentOfJValue⟩

/-- `CardModified`. -/
structure CardModified where
  id : String
  old_title : String
  new_title : String
  old_description : String
  new_description : String
  old_link : String
  new_link : String
  old_column : Option String
  new_column : Option String
  attachments_added : List AttachmentData := []
  attachments_removed : List AttachmentData := []
deriving DecidableEq, Repr

/-- `CardModified.to_dict`. -/
def CardModified.to_dict (c : CardModified) : List (String × JValue) :=
  [("id", JValue.str c.id), ("old_title", JValue.str c.old_title),
   ("new_title", JValue.str c.new_title),
   ("old_description", JValue.str c.old_description),
   ("new_description", JValue.str c.new_description),
   ("old_link", JValue.str c.old_link), ("new_link", JValue.str c.new_link),
   ("old_column", optStr c.old_column), ("new_column", optStr c.new_column),
   ("attachments_added",
     JValue.arr (c.attachments_added.map (fun a => JValue.obj a.to_dict))),
   ("attachments_removed",
     JValue.arr (c.attachments_removed.map (fun a => JValue.obj a.to_dict)))]

/-- `CardModified.from_dict`. -/
def CardModified.from_dict (fs : List (String × JValue)) : CardModified :=
  ⟨getStr fs "id", getStr fs "old_title", getStr fs "new_title",
   getStr fs "old_description", getStr fs "new_description",
   getStr fs "old_link", getStr fs "new_link",
   getOptStr fs "old_column", getOptStr fs "new_column",
   (getArr fs "attachments_added").map attachmentOfJValue,
   (getArr fs "attachments_removed").map attachmentOfJValue⟩

/-- `ChangeSet`. -/
structure ChangeSet where
  cards_added : List CardAdded := []
  cards_removed : List CardRemoved := []
  cards_modified : List CardModified := []
  is_first_run : Bool := false
  cards_count : Int := 0
deriving DecidableEq, Repr

/-- Decode one element of a card array (same convention as
`attachmentOfJValue`). -/
def cardAddedOfJValue : JValue → CardAdded
  | JValue.obj fs => CardAdded.from_dict fs
  | _ => CardAdded.from_dict []

def cardRemovedOfJValue : JValue → CardRemoved
  | JValue.obj fs => CardRemoved.from_dict fs
  | _ => CardRemoved.from_dict []

def cardModifiedOfJValue : JValue → CardModified
  | JValue.obj fs => CardModified.from_dict fs
  | _ => CardModified.from_dict []

/-- `ChangeSet.to_dict`: note the modified cards are serialized under the
`cards_changed` key. -/
def ChangeSet.to_dict (cs : ChangeSet) : List (String × JValue) :=
  [("cards_added", JValue.arr (cs.cards_added.map (fun c => JValue.obj c.to_dict))),
   ("cards_removed", JValue.arr (cs.cards_removed.map (fun c => JValue.obj c.to_dict))),
   ("cards_changed", JValue.arr (cs.cards_modified.map (fun c => JValue.obj c.to_dict))),
   ("is_first_run", JValue.bool cs.is_first_run),
   ("cards_count", JValue.int cs.cards_count)]

/-- `ChangeSet.from_dict`: reads the modified cards back from
`cards_changed`. -/
def ChangeSet.from_dict (fs : List (String × JValue)) : ChangeSet :=
  ⟨(getArr fs "cards_added").map cardAddedOfJValue,
   (getArr fs "cards_removed").map cardRemovedOfJValue,
   (getArr fs "cards_changed").map cardModifiedOfJValue,
   getBool fs "is_first_run", getInt fs "cards_count"⟩

/-! ## `BoardMonitor.get_previous_state`

The persisted state file, as the loader sees it. `json v` is a file whose
content parses as the JSON document `v`. -/

inductive StoredState where
  | missing : StoredState
  | invalidJson : StoredState
  | json : JValue → StoredState

/-- An uncaught Python exception escaping `get_previous_state`. -/
inductive PyError where
  | typeError : PyError
deriving DecidableEq, Repr

/-- `BoardMonitor.get_previous_state`: a missing file and the caught
exceptions (`json.JSONDecodeError`, `KeyError`, `FileNotFoundError`) give
`None`; subscripting a parsed document that is not an object raises
`TypeError`, which the `except` clause does not cover. The loaded state is
returned as the raw `(timestamp, columns, cards)` triple, exactly as
`BoardState.from_dict` assigns it without validation. -/
def get_previous_state (st : StoredState) :
    Except PyError (Option (JValue × JValue × JValue)) :=
  match st with
  | StoredState.missing => Except.ok none
  | StoredState.invalidJson => Except.ok none
  | StoredState.json v =>
    match v with
    | JValue.obj fs =>
      match dlookup fs "timestamp" with
      | none => Except.ok none
      | some t =>
        match dlookup fs "columns" with
        | none => Except.ok none
        | some c =>
          match dlookup fs "cards" with
          | none => Except.ok none
          | some k => Except.ok (some (t, c, k))
    | _ => Except.error PyError.typeError

/-! ## Temporal store

`models.py` declares the temporal tables (`cards` and `lists` rows carry
`valid_from`/`valid_to`, plus an append-only `changes` ledger), but the
write routine itself is not part of the sources. It is modelled from the
spec (§4.5) below. -/

/-- Tracked attributes of a `cards` table row (`models.py`, class `Card`). -/
structure CardAttrs where
  title : Option String
  description : Option String
  link : Option String
  list_id : Option String
  list_name : Option String
deriving DecidableEq, Repr

/-- Tracked attributes of a `lists` table row (`models.py`, class `List`). -/
structure ListAttrs where
  name : String
  position : Option Int
  color : Option String
deriving DecidableEq, Repr

/-- A versioned row: entity attributes plus a validity interval
(`valid_to = none` means the version is currently open). -/
structure VersionedRow (A : Type) where
  entity_id : String
  attrs : A
  valid_from : Nat
  valid_to : Option Nat
deriving DecidableEq, Repr

/-- A `changes` ledger row (`models.py`, class `Change`). -/
structure LedgerEntry where
  timestamp : Nat
  change_type : String
  card_id : String
  details : String
deriving DecidableEq, Repr

/-- The changeset as consumed by the temporal store: per-kind card ids. -/
structure StoreChangeset where
  is_first_run : Bool
  cards_added : List String
  cards_removed : List String
  cards_modified : List String
deriving DecidableEq, Repr

/-- One observed snapshot, as (entity id, tracked attributes) rows. -/
structure StoreSnapshot where
  cards : List (String × CardAttrs)
  lists : List (String × ListAttrs)
deriving DecidableEq, Repr

/-- The persisted store: two temporal tables and the append-only ledger. -/
structure TemporalStore where
  cards : List (VersionedRow CardAttrs)
  lists : List (VersionedRow ListAttrs)
  ledger : List LedgerEntry
deriving DecidableEq, Repr

/-- The currently-open version of an entity: the first row with that id
and an open validity interval. -/
def find_open {A : Type} (rows : List (VersionedRow A)) (eid : String) :
    Option (VersionedRow A) :=
  rows.find? (fun r => r.entity_id = eid ∧ r.valid_to = none)

/-- Closing an open version of entity `e'` at time `now` (the
`valid_to = now` update of the spec's §4.5). -/
def close_open {A : Type} (e' : String) (now : Nat) (r' : VersionedRow A) :
    VersionedRow A :=
  if r'.entity_id = e' ∧ r'.valid_to = none then { r' with valid_to := some now } else r'

/-- Modelled from the spec: §4.5 `write`, one entity. If the open version's
tracked attributes equal the new observation, do nothing; otherwise close
every open version of the entity (`valid_to = now`) and open a new one
(`valid_from = now`, `valid_to = null`). -/
def upsert_version {A : Type} [DecidableEq A] (rows : List (VersionedRow A))
    (eid : String) (a : A) (now : Nat) : List (VersionedRow A) :=
  match find_open rows eid with
  | some r =>
    if r.attrs = a then rows
    else rows.map (close_open eid now) ++ [⟨eid, a, now, none⟩]
  | none => rows ++ [⟨eid, a, now, none⟩]

/-- Modelled from the spec: §4.5 `write` over one temporal table, applied
independently per observed entity. -/
def write_table {A : Type} [DecidableEq A] (rows : List (VersionedRow A))
    (obs : List (String × A)) (now : Nat) : List (VersionedRow A) :=
  obs.foldl (fun acc e => upsert_version acc e.1 e.2 now) rows

/-- Modelled from the spec: §4.5 — after versioning, one ledger entry per
added/removed/modified card of the changeset, none on a first run. -/
def ledger_entries (cs : StoreChangeset) (now : Nat) : List LedgerEntry :=
  if cs.is_first_run then []
  else
    cs.cards_added.map (fun cid => ⟨now, "card_added", cid, ""⟩) ++
    cs.cards_removed.map (fun cid => ⟨now, "card_removed", cid, ""⟩) ++
    cs.cards_modified.map (fun cid => ⟨now, "card_modified", cid, ""⟩)

/-- Modelled from the spec: §4.5 `write(board, snapshot, changeset, now)`. -/
def store_write (s : TemporalStore) (snap : StoreSnapshot) (cs : StoreChangeset)
    (now : Nat) : TemporalStore :=
  { cards := write_table s.cards snap.cards now
    lists := write_table s.lists snap.lists now
    ledger := s.ledger ++ ledger_entries cs now }

/-! ## Association-list lemmas -/

theorem dlookup_nil {K V : Type} [DecidableEq K] (k : K) :
    dlookup ([] : List (K × V)) k = none := rfl

theorem dlookup_cons {K V : Type} [DecidableEq K] (k' : K) (v' : V) (l : List (K × V)) (k : K) :
    dlookup ((k', v') :: l) k = if k' = k then some v' else dlookup l k := by
  simp only [dlookup, List.find?_cons]
  by_cases h : k' = k <;> simp [h]

theorem dlookup_dinsert {K V : Type} [DecidableEq K] (l : List (K × V)) (k : K) (v : V)
    (k' : K) : dlookup (dinsert l k v) k' = if k' = k then some v else dlookup l k' := by
  induction l with
  | nil =>
    rw [show dinsert ([] : List (K × V)) k v = [(k, v)] from rfl, dlookup_cons, dlookup_nil]
    by_cases h : k = k'
    · rw [if_pos h, if_pos h.symm]
    · rw [if_neg h, if_neg (fun hc => h hc.symm)]
  | cons e rest ih =>
    obtain ⟨ke, ve⟩ := e
    by_cases hk : ke = k
    · subst hk
      rw [show dinsert ((ke, ve) :: rest) ke v = (ke, v) :: rest from by simp [dinsert],
        dlookup_cons, dlookup_cons]
      by_cases h : ke = k'
      · rw [if_pos h, if_pos h.symm]
      · rw [if_neg h, if_neg (fun hc => h hc.symm), if_neg h]
    · rw [show dinsert ((ke, ve) :: rest) k v = (ke, ve) :: dinsert rest k v from by
        simp [dinsert, hk], dlookup_cons, ih, dlookup_cons]
      by_cases h : ke = k'
      · have hne : ¬ k' = k := fun hc => hk (h.trans hc)
        rw [if_pos h, if_neg hne, if_pos h]
      · rw [if_neg h]
        by_cases h2 : k' = k
        · rw [if_pos h2, if_pos h2]
        · rw [if_neg h2, if_neg h2, if_neg h]

theorem mem_dkeys_dinsert {K V : Type} [DecidableEq K] (l : List (K × V)) (k : K) (v : V)
    (k' : K) : k' ∈ dkeys (dinsert l k v) ↔ k' = k ∨ k' ∈ dkeys l := by
  induction l with
  | nil => simp [dinsert, dkeys]
  | cons e rest ih =>
    obtain ⟨ke, ve⟩ := e
    by_cases hk : ke = k
    · subst hk
      simp [dinsert, dkeys]
    · simp only [dinsert, if_neg hk, dkeys, List.map_cons, List.mem_cons] at *
      constructor
      · rintro (h | h)
        · right; left; exact h
        · rcases ih.mp h with h' | h'
          · left; exact h'
          · right; right; exact h'
      · rintro (h | h | h)
        · right; exact ih.mpr (Or.inl h)
        · left; exact h
        · right; exact ih.mpr (Or.inr h)

theorem nodup_dkeys_dinsert {K V : Type} [DecidableEq K] (l : List (K × V)) (k : K) (v : V)
    (h : (dkeys l).Nodup) : (dkeys (dinsert l k v)).Nodup := by
  induction l with
  | nil => simp [dinsert, dkeys]
  | cons e rest ih =>
    obtain ⟨ke, ve⟩ := e
    simp only [dkeys, List.map_cons, List.nodup_cons] at h
    by_cases hk : ke = k
    · subst hk
      simpa [dinsert, dkeys, List.nodup_cons] using h
    · simp only [dinsert, if_neg hk, dkeys, List.map_cons, List.nodup_cons]
      refine ⟨fun hmem => ?_, ih h.2⟩
      rcases (mem_dkeys_dinsert rest k v ke).mp hmem with h' | h'
      · exact hk h'
      · exact h.1 h'

/-- The dict built by `byKey` has unique keys. -/
theorem nodup_dkeys_byKey {α K V : Type} [DecidableEq K] (l : List α) (key : α → K)
    (val : α → V) : (dkeys (byKey l key val)).Nodup := by
  suffices h : ∀ acc : List (K × V), (dkeys acc).Nodup →
      (dkeys (l.foldl (fun acc a => dinsert acc (key a) (val a)) acc)).Nodup by
    exact h [] (by simp [dkeys])
  induction l with
  | nil => intro acc h; exact h
  | cons a rest ih =>
    intro acc h
    exact ih _ (nodup_dkeys_dinsert acc (key a) (val a) h)

/-- Looking up the dict `{key a: val a for a in l}` returns the value of the
last element of `l` with the given key. -/
theorem dlookup_byKey {α K V : Type} [DecidableEq K] (l : List α) (key : α → K) (val : α → V)
    (k : K) :
    dlookup (byKey l key val) k = (find_last (fun a => key a = k) l).map val := by
  suffices h : ∀ acc : List (K × V),
      dlookup (l.foldl (fun acc a => dinsert acc (key a) (val a)) acc) k =
        match find_last (fun a => key a = k) l with
        | some a => some (val a)
        | none => dlookup acc k by
    rw [byKey, h []]
    cases find_last (fun a => key a = k) l <;> simp [dlookup]
  induction l with
  | nil => intro acc; rfl
  | cons a rest ih =>
    intro acc
    simp only [List.foldl_cons, ih (dinsert acc (key a) (val a)), find_last]
    cases hfl : find_last (fun a => key a = k) rest with
    | some b => rfl
    | none =>
      simp only [dlookup_dinsert]
      by_cases h : key a = k
      · simp [h]
      · have h' : ¬ k = key a := fun he => h he.symm
        simp [h, h']

theorem find_last_mem {α : Type} (p : α → Bool) (l : List α) (a : α)
    (h : find_last p l = some a) : a ∈ l ∧ p a = true := by
  induction l with
  | nil => simp [find_last] at h
  | cons b rest ih =>
    simp only [find_last] at h
    cases hfl : find_last p rest with
    | some c =>
      rw [hfl] at h
      injection h with h; subst h
      obtain ⟨hm, hp⟩ := ih hfl
      exact ⟨List.mem_cons_of_mem _ hm, hp⟩
    | none =>
      rw [hfl] at h
      by_cases hp : p b
      · rw [if_pos hp] at h
        injection h with h; subst h
        exact ⟨List.mem_cons_self _ _, hp⟩
      · rw [if_neg hp] at h; cases h

theorem find_last_eq_none {α : Type} (p : α → Bool) (l : List α) :
    find_last p l = none ↔ ∀ a ∈ l, p a = false := by
  induction l with
  | nil => simp [find_last]
  | cons b rest ih =>
    simp only [find_last]
    cases hfl : find_last p rest with
    | some c =>
      constructor
      · intro h; cases h
      · intro h
        have := ih.mpr (fun a ha => h a (List.mem_cons_of_mem _ ha))
        rw [hfl] at this; cases this
    | none =>
      by_cases hp : p b
      · rw [if_pos hp]
        constructor
        · intro h; cases h
        · intro h
          have := h b (List.mem_cons_self _ _)
          rw [hp] at this; cases this
      · rw [if_neg hp]
        constructor
        · intro _ a ha
          rcases List.mem_cons.mp ha with rfl | ha'
          · exact Bool.eq_false_iff.mpr hp
          · exact ih.mp hfl a ha'
        · intro _; rfl

theorem find_last_isSome_of_mem {α : Type} (p : α → Bool) (l : List α) (a : α)
    (ha : a ∈ l) (hp : p a = true) : (find_last p l).isSome := by
  cases hfl : find_last p l with
  | some b => rfl
  | none =>
    have := (find_last_eq_none p l).mp hfl a ha
    rw [hp] at this; cases this

/-- Membership in the value of a `byKey` lookup comes from an element of the
source list with the right key. -/
theorem dlookup_byKey_some {α K V : Type} [DecidableEq K] (l : List α) (key : α → K)
    (val : α → V) (k : K) (v : V) (h : dlookup (byKey l key val) k = some v) :
    ∃ a ∈ l, key a = k ∧ val a = v := by
  rw [dlookup_byKey] at h
  cases hfl : find_last (fun a => key a = k) l with
  | none => rw [hfl] at h; cases h
  | some a =>
    rw [hfl] at h
    injection h with h
    obtain ⟨hm, hp⟩ := find_last_mem _ _ _ hfl
    exact ⟨a, hm, by simpa using hp, h⟩

theorem containsKey_iff_mem_dkeys {K V : Type} [DecidableEq K] (l : List (K × V)) (k : K) :
    containsKey l k = true ↔ k ∈ dkeys l := by
  induction l with
  | nil => simp [containsKey, dkeys]
  | cons e rest ih =>
    obtain ⟨ke, ve⟩ := e
    simp only [containsKey, List.any_cons, Bool.or_eq_true, decide_eq_true_eq, dkeys,
      List.map_cons, List.mem_cons] at *
    constructor
    · rintro (h | h)
      · exact Or.inl h.symm
      · exact Or.inr (ih.mp h)
    · rintro (h | h)
      · exact Or.inl h.symm
      · exact Or.inr (ih.mpr h)

theorem mem_dkeys_iff_dlookup_isSome {K V : Type} [DecidableEq K] (l : List (K × V)) (k : K) :
    k ∈ dkeys l ↔ (dlookup l k).isSome := by
  induction l with
  | nil => simp [dkeys, dlookup]
  | cons e rest ih =>
    obtain ⟨ke, ve⟩ := e
    rw [dlookup_cons]
    by_cases h : ke = k
    · simp [dkeys, h]
    · rw [if_neg h]
      simp only [dkeys, List.map_cons, List.mem_cons]
      constructor
      · intro hm
        rcases hm with rfl | hm'
        · exact absurd rfl h
        · exact ih.mp hm'
      · intro hs
        exact Or.inr (ih.mpr hs)

theorem mem_dkeys_byKey {α K V : Type} [DecidableEq K] (l : List α) (key : α → K)
    (val : α → V) (k : K) : k ∈ dkeys (byKey l key val) ↔ ∃ a ∈ l, key a = k := by
  rw [mem_dkeys_iff_dlookup_isSome, dlookup_byKey]
  constructor
  · intro h
    cases hfl : find_last (fun a => key a = k) l with
    | none => rw [hfl] at h; simp at h
    | some a =>
      obtain ⟨hm, hp⟩ := find_last_mem _ _ _ hfl
      exact ⟨a, hm, by simpa using hp⟩
  · rintro ⟨a, hm, hk⟩
    have hs := find_last_isSome_of_mem (fun a => key a = k) l a hm (by simpa using hk)
    cases hfl : find_last (fun a => key a = k) l with
    | none => rw [hfl] at hs; cases hs
    | some b => rfl

/-- In a dict with unique keys, a member entry is what lookup returns. -/
theorem dlookup_of_mem_nodup {K V : Type} [DecidableEq K] (l : List (K × V))
    (hnd : (dkeys l).Nodup) (k : K) (v : V) (h : (k, v) ∈ l) : dlookup l k = some v := by
  induction l with
  | nil => cases h
  | cons e rest ih =>
    obtain ⟨ke, ve⟩ := e
    simp only [dkeys, List.map_cons, List.nodup_cons] at hnd
    rcases List.mem_cons.mp h with he | he
    · injection he with h1 h2
      subst h1; subst h2
      simp [dlookup_cons]
    · have hne : ke ≠ k := by
        intro hc; subst hc
        exact hnd.1 (List.mem_map.mpr ⟨(ke, v), he, rfl⟩)
      rw [dlookup_cons, if_neg hne]
      exact ih hnd.2 he

/-- If mapping `f` over a list is duplicate-free, `f` is injective on it. -/
theorem inj_on_of_nodup_map' {α β : Type} {f : α → β} {l : List α}
    (h : (l.map f).Nodup) : ∀ x ∈ l, ∀ y ∈ l, f x = f y → x = y := by
  intro x hx y hy hxy
  exact List.inj_on_of_nodup_map h hx hy hxy

/-- A `filterMap` over a duplicate-free list where only one element can
produce output yields exactly that output. -/
theorem filterMap_eq_singleton {α β : Type} (l : List α) (f : α → Option β) (a : α) (b : β)
    (hnd : l.Nodup) (ha : a ∈ l) (hfa : f a = some b)
    (hother : ∀ x ∈ l, x ≠ a → f x = none) : l.filterMap f = [b] := by
  induction l with
  | nil => cases ha
  | cons c rest ih =>
    simp only [List.nodup_cons] at hnd
    rcases List.mem_cons.mp ha with rfl | ha'
    · have hrest : ∀ x ∈ rest, f x = none := by
        intro x hx
        exact hother x (List.mem_cons_of_mem _ hx) (fun hc => hnd.1 (hc ▸ hx))
      rw [List.filterMap_cons, hfa]
      have : rest.filterMap f = [] := by
        rw [List.filterMap_eq_nil_iff]
        intro x hx; simp [hrest x hx]
      rw [this]
    · have hc : f c = none := by
        refine hother c (List.mem_cons_self _ _) ?_
        intro hce; subst hce; exact hnd.1 ha'
      rw [List.filterMap_cons, hc]
      exact ih hnd.2 ha' (fun x hx => hother x (List.mem_cons_of_mem _ hx))

/-- Folding dict insertions over a list, starting from an arbitrary dict:
the last written value wins, and unwritten keys fall through. -/
theorem dlookup_foldl_dinsert {α K V : Type} [DecidableEq K] (l : List α) (key : α → K)
    (val : α → V) (acc : List (K × V)) (k : K) :
    dlookup (l.foldl (fun acc a => dinsert acc (key a) (val a)) acc) k =
      match find_last (fun a => key a = k) l with
      | some a => some (val a)
      | none => dlookup acc k := by
  induction l generalizing acc with
  | nil => rfl
  | cons a rest ih =>
    simp only [List.foldl_cons, ih (dinsert acc (key a) (val a)), find_last]
    cases hfl : find_last (fun a => key a = k) rest with
    | some b => rfl
    | none =>
      simp only [dlookup_dinsert]
      by_cases h : key a = k
      · simp [h]
      · have h' : ¬ k = key a := fun he => h he.symm
        simp [h, h']

/-- Keys of a filtered dict are still duplicate-free. -/
theorem nodup_dkeys_filter {K V : Type} (l : List (K × V)) (p : K × V → Bool)
    (h : (dkeys l).Nodup) : (dkeys (l.filter p)).Nodup := by
  have hsub : (dkeys (l.filter p)).Sublist (dkeys l) := (List.filter_sublist l).map _
  exact h.sublist hsub

/-- In a dict comprehension over entries with duplicate-free names, the
name stored in a value determines the key and the value: two lookups whose
values carry the same name come from the same entry. -/
theorem byKey_lookup_name_inj {β K V : Type} [DecidableEq K]
    (l : List (String × β)) (hnd : (dkeys l).Nodup)
    (keyf : (String × β) → K) (valf : (String × β) → V) (nmf : V → String)
    (hcompat : ∀ e, nmf (valf e) = e.1) (k k' : K) (v v' : V)
    (h : dlookup (byKey l keyf valf) k = some v)
    (h' : dlookup (byKey l keyf valf) k' = some v')
    (hname : nmf v = nmf v') : k = k' ∧ v = v' := by
  obtain ⟨e, he, hk, hv⟩ := dlookup_byKey_some _ _ _ _ _ h
  obtain ⟨e', he', hk', hv'⟩ := dlookup_byKey_some _ _ _ _ _ h'
  have hfst : e.1 = e'.1 := by
    rw [← hcompat e, ← hcompat e', hv, hv', hname]
  have hee : e = e' := inj_on_of_nodup_map' hnd e he e' he' hfst
  subst hee
  exact ⟨hk.symm.trans hk', hv.symm.trans hv'⟩

/-! ## Lemmas about the reconciler -/

theorem mem_filter_renamed_iff {α : Type} (items : List α) (renamed : List String)
    (name_of : α → String) (a : α) :
    a ∈ filter_renamed_items items renamed name_of ↔
      a ∈ items ∧ name_of a ∉ renamed := by
  unfold filter_renamed_items
  cases renamed with
  | nil => simp
  | cons h t => simp [List.mem_filter]

theorem member_containsKey {K V : Type} [DecidableEq K] (m : List (K × V)) (e : K × V)
    (he : e ∈ m) : containsKey m e.1 = true := by
  simp only [containsKey, List.any_eq_true, decide_eq_true_eq]
  exact ⟨e, he, rfl⟩

theorem filter_not_containsKey_self {K V : Type} [DecidableEq K] (m : List (K × V)) :
    (m.filter fun e => ¬ containsKey m e.1) = [] := by
  rw [List.filter_eq_nil_iff]
  intro e he
  simp [member_containsKey m e he]

theorem filter_containsKey_self {K V : Type} [DecidableEq K] (m : List (K × V)) :
    (m.filter fun e => containsKey m e.1) = m := by
  rw [List.filter_eq_self]
  intro e he
  exact member_containsKey m e he

/-- Looking up an identity-valued dict comprehension gives back the key. -/
theorem dlookupD_byKey_id {α K : Type} [DecidableEq K] (l : List α) (key : α → K) (k : K) :
    dlookupD (byKey l key key) k k = k := by
  rw [dlookupD, dlookup_byKey]
  cases hfl : find_last (fun a => key a = k) l with
  | none => rfl
  | some a =>
    obtain ⟨_, hp⟩ := find_last_mem _ _ _ hfl
    simpa using hp

theorem added_col_entries_self (s : BoardState) : added_col_entries s s = [] := by
  unfold added_col_entries
  exact filter_not_containsKey_self _

theorem removed_col_entries_self (s : BoardState) : removed_col_entries s s = [] := by
  unfold removed_col_entries
  exact filter_not_containsKey_self _

theorem columns_moved_of_self (s : BoardState) : columns_moved_of s s = [] := by
  unfold columns_moved_of common_col_entries
  rw [filter_containsKey_self, List.filterMap_eq_nil_iff]
  intro e he
  rw [show dlookup (column_name_map s) e.1 = some e.2 from
    dlookup_of_mem_nodup _ (nodup_dkeys_byKey _ _ _) _ _ (by simpa using he)]
  simp

theorem added_card_entries_self (s : BoardState) : added_card_entries s s = [] := by
  unfold added_card_entries
  exact filter_not_containsKey_self _

theorem removed_card_entries_self (s : BoardState) : removed_card_entries s s = [] := by
  unfold removed_card_entries
  exact filter_not_containsKey_self _

theorem columns_renamed_of_self (s : BoardState) : columns_renamed_of s s = [] := by
  unfold columns_renamed_of rename_positions removed_by_position
  rw [removed_col_entries_self]
  rfl

theorem cards_renamed_of_self (s : BoardState) : cards_renamed_of s s = [] := by
  unfold cards_renamed_of renamed_card_ids removed_cards_by_id
  rw [removed_card_entries_self]
  rfl

theorem cards_moved_of_self (s : BoardState) : cards_moved_of s s = [] := by
  unfold cards_moved_of common_card_entries
  rw [filter_containsKey_self, List.filterMap_eq_nil_iff]
  intro e he
  rw [show dlookup (card_title_map s) e.1 = some e.2 from
    dlookup_of_mem_nodup _ (nodup_dkeys_byKey _ _ _) _ _ (by simpa using he)]
  have hmap : prev_col_name_to_curr_name s s =
      byKey (common_col_entries s s) (fun e => e.1) (fun e => e.1) := by
    unfold prev_col_name_to_curr_name
    rw [columns_renamed_of_self]
    rfl
  simp only [hmap, dlookupD_byKey_id]
  simp

/-! ## Temporal-store lemmas -/

theorem find_open_cons {A : Type} (r : VersionedRow A) (rest : List (VersionedRow A))
    (eid : String) :
    find_open (r :: rest) eid =
      if r.entity_id = eid ∧ r.valid_to = none then some r else find_open rest eid := by
  by_cases h : r.entity_id = eid ∧ r.valid_to = none
  · rw [if_pos h, find_open, List.find?_cons]
    simp only [decide_eq_true h]
  · rw [if_neg h, find_open, find_open, List.find?_cons]
    simp only [decide_eq_false h]

theorem find_open_append {A : Type} (l₁ l₂ : List (VersionedRow A)) (eid : String) :
    find_open (l₁ ++ l₂) eid = (find_open l₁ eid).or (find_open l₂ eid) := by
  simp [find_open, List.find?_append]

/-- Closing the open versions of `eid` leaves nothing of `eid` open. -/
theorem find_open_close_self {A : Type} (rows : List (VersionedRow A)) (eid : String)
    (now : Nat) : find_open (rows.map (close_open eid now)) eid = none := by
  induction rows with
  | nil => rfl
  | cons r rest ih =>
    rw [List.map_cons, find_open_cons]
    rw [if_neg ?hne]
    · exact ih
    case hne =>
      intro hc
      by_cases hr : r.entity_id = eid ∧ r.valid_to = none
      · rw [show close_open eid now r = { r with valid_to := some now } from if_pos hr] at hc
        exact Option.noConfusion hc.2
      · rw [show close_open eid now r = r from if_neg hr] at hc
        exact hr hc

/-- Closing the open versions of another entity does not affect `eid`. -/
theorem find_open_close_other {A : Type} (rows : List (VersionedRow A)) (eid e' : String)
    (hne : e' ≠ eid) (now : Nat) :
    find_open (rows.map (close_open e' now)) eid = find_open rows eid := by
  induction rows with
  | nil => rfl
  | cons r rest ih =>
    rw [List.map_cons, find_open_cons, find_open_cons]
    by_cases hr : r.entity_id = e' ∧ r.valid_to = none
    · rw [show close_open e' now r = { r with valid_to := some now } from if_pos hr]
      rw [if_neg (fun hc => hne (by rw [← hr.1]; exact hc.1)),
        if_neg (fun hc => hne (by rw [← hr.1]; exact hc.1))]
      exact ih
    · rw [show close_open e' now r = r from if_neg hr]
      by_cases hp : r.entity_id = eid ∧ r.valid_to = none
      · rw [if_pos hp, if_pos hp]
      · rw [if_neg hp, if_neg hp]
        exact ih

theorem upsert_version_eq_close {A : Type} [DecidableEq A] (rows : List (VersionedRow A))
    (eid : String) (a : A) (now : Nat) (r : VersionedRow A)
    (hfo : find_open rows eid = some r) (hattrs : r.attrs ≠ a) :
    upsert_version rows eid a now =
      rows.map (close_open eid now) ++ [⟨eid, a, now, none⟩] := by
  unfold upsert_version
  simp only [hfo, if_neg hattrs]

theorem upsert_version_eq_keep {A : Type} [DecidableEq A] (rows : List (VersionedRow A))
    (eid : String) (a : A) (now : Nat) (r : VersionedRow A)
    (hfo : find_open rows eid = some r) (hattrs : r.attrs = a) :
    upsert_version rows eid a now = rows := by
  unfold upsert_version
  simp only [hfo, if_pos hattrs]

theorem upsert_version_eq_append {A : Type} [DecidableEq A] (rows : List (VersionedRow A))
    (eid : String) (a : A) (now : Nat) (hfo : find_open rows eid = none) :
    upsert_version rows eid a now = rows ++ [⟨eid, a, now, none⟩] := by
  unfold upsert_version
  simp only [hfo]

/-- After upserting an observation, the open version of that entity holds
exactly the observed attributes. -/
theorem find_open_upsert_self {A : Type} [DecidableEq A]
    (rows : List (VersionedRow A)) (eid : String) (a : A) (now : Nat) :
    ∃ r, find_open (upsert_version rows eid a now) eid = some r ∧ r.attrs = a := by
  have hnew : find_open [(⟨eid, a, now, none⟩ : VersionedRow A)] eid =
      some ⟨eid, a, now, none⟩ := by
    rw [find_open_cons, if_pos ⟨rfl, rfl⟩]
  cases hfo : find_open rows eid with
  | some r =>
    by_cases hattrs : r.attrs = a
    · rw [upsert_version_eq_keep rows eid a now r hfo hattrs]
      exact ⟨r, hfo, hattrs⟩
    · rw [upsert_version_eq_close rows eid a now r hfo hattrs, find_open_append,
        find_open_close_self, hnew]
      exact ⟨⟨eid, a, now, none⟩, rfl, rfl⟩
  | none =>
    rw [upsert_version_eq_append rows eid a now hfo, find_open_append, hfo, hnew]
    exact ⟨⟨eid, a, now, none⟩, rfl, rfl⟩

/-- Upserting a different entity does not change what is open for `eid`. -/
theorem find_open_upsert_other {A : Type} [DecidableEq A]
    (rows : List (VersionedRow A)) (eid e' : String) (hne : e' ≠ eid) (a : A) (now : Nat) :
    find_open (upsert_version rows e' a now) eid = find_open rows eid := by
  have hnew : find_open [(⟨e', a, now, none⟩ : VersionedRow A)] eid = none := by
    rw [find_open_cons, if_neg (fun hc => hne hc.1)]
    rfl
  cases hfo : find_open rows e' with
  | some r =>
    by_cases hattrs : r.attrs = a
    · rw [upsert_version_eq_keep rows e' a now r hfo hattrs]
    · rw [upsert_version_eq_close rows e' a now r hfo hattrs, find_open_append,
        find_open_close_other rows eid e' hne now, hnew]
      cases find_open rows eid <;> rfl
  | none =>
    rw [upsert_version_eq_append rows e' a now hfo, find_open_append, hnew]
    cases find_open rows eid <;> rfl

/-- Writing a table does not change what is open for an unobserved entity. -/
theorem find_open_write_table_other {A : Type} [DecidableEq A]
    (obs : List (String × A)) (rows : List (VersionedRow A)) (eid : String)
    (hne : ∀ e ∈ obs, e.1 ≠ eid) (now : Nat) :
    find_open (write_table rows obs now) eid = find_open rows eid := by
  induction obs generalizing rows with
  | nil => rfl
  | cons e rest ih =>
    rw [write_table, List.foldl_cons]
    rw [show List.foldl (fun acc e => upsert_version acc e.1 e.2 now)
        (upsert_version rows e.1 e.2 now) rest =
      write_table (upsert_version rows e.1 e.2 now) rest now from rfl]
    rw [ih _ (fun x hx => hne x (List.mem_cons_of_mem _ hx))]
    exact find_open_upsert_other rows eid e.1 (hne e (List.mem_cons_self _ _)) e.2 now

/-- After a write, every observed entity's open version carries exactly the
observed attributes (snapshot entity ids are unique). -/
theorem find_open_write_table_self {A : Type} [DecidableEq A]
    (obs : List (String × A)) (rows : List (VersionedRow A)) (now : Nat)
    (hnd : (obs.map (·.1)).Nodup) :
    ∀ e ∈ obs, ∃ r, find_open (write_table rows obs now) e.1 = some r ∧ r.attrs = e.2 := by
  induction obs generalizing rows with
  | nil => intro e he; cases he
  | cons e0 rest ih =>
    simp only [List.map_cons, List.nodup_cons] at hnd
    intro e he
    rw [write_table, List.foldl_cons]
    rw [show List.foldl (fun acc e => upsert_version acc e.1 e.2 now)
        (upsert_version rows e0.1 e0.2 now) rest =
      write_table (upsert_version rows e0.1 e0.2 now) rest now from rfl]
    rcases List.mem_cons.mp he with rfl | he'
    · rw [find_open_write_table_other rest _ e.1
        (fun x hx => fun hc => hnd.1 (hc ▸ List.mem_map.mpr ⟨x, hx, rfl⟩)) now]
      exact find_open_upsert_self rows e.1 e.2 now
    · exact ih _ hnd.2 e he'

/-- If every observed entity already has an open version with the observed
attributes, the write is a no-op on the table. -/
theorem write_table_stable {A : Type} [DecidableEq A]
    (obs : List (String × A)) (rows : List (VersionedRow A)) (now : Nat)
    (h : ∀ e ∈ obs, ∃ r, find_open rows e.1 = some r ∧ r.attrs = e.2) :
    write_table rows obs now = rows := by
  induction obs with
  | nil => rfl
  | cons e0 rest ih =>
    rw [write_table, List.foldl_cons]
    obtain ⟨r, hfo, hattrs⟩ := h e0 (List.mem_cons_self _ _)
    rw [upsert_version_eq_keep rows e0.1 e0.2 now r hfo hattrs]
    exact ih (fun e he => h e (List.mem_cons_of_mem _ he))

/-! ## Round-trip lemmas for `changes.py` -/

theorem attachment_round (a : AttachmentData) :
    attachmentOfJValue (JValue.obj a.to_dict) = a := by
  obtain ⟨i, f, d, m, le⟩ := a
  cases m <;> cases le <;> rfl

theorem attachments_round (l : List AttachmentData) :
    (l.map (fun a => JValue.obj a.to_dict)).map attachmentOfJValue = l := by
  induction l with
  | nil => rfl
  | cons a t ih => simp only [List.map_cons, ih, attachment_round]

theorem cardAdded_round (c : CardAdded) :
    cardAddedOfJValue (JValue.obj c.to_dict) = c := by
  obtain ⟨i, t, d, l, col, atts⟩ := c
  cases col with
  | none => exact congrArg (fun x => CardAdded.mk i t d l none x) (attachments_round atts)
  | some s =>
    exact congrArg (fun x => CardAdded.mk i t d l (some s) x) (attachments_round atts)

theorem cardsAdded_round (l : List CardAdded) :
    (l.map (fun c => JValue.obj c.to_dict)).map cardAddedOfJValue = l := by
  induction l with
  | nil => rfl
  | cons c t ih => simp only [List.map_cons, ih, cardAdded_round]

theorem cardRemoved_round (c : CardRemoved) :
    cardRemovedOfJValue (JValue.obj c.to_dict) = c := by
  obtain ⟨i, t, d, l, col, atts⟩ := c
  cases col with
  | none => exact congrArg (fun x => CardRemoved.mk i t d l none x) (attachments_round atts)
  | some s =>
    exact congrArg (fun x => CardRemoved.mk i t d l (some s) x) (attachments_round atts)

theorem cardsRemoved_round (l : List CardRemoved) :
    (l.map (fun c => JValue.obj c.to_dict)).map cardRemovedOfJValue = l := by
  induction l with
  | nil => rfl
  | cons c t ih => simp only [List.map_cons, ih, cardRemoved_round]

theorem cardModified_round (c : CardModified) :
    cardModifiedOfJValue (JValue.obj c.to_dict) = c := by
  obtain ⟨i, ot, nt, od, nd, ol, nl, oc, nc, aa, ar⟩ := c
  cases oc <;> cases nc <;>
    exact (congrArg (fun x => CardModified.mk i ot nt od nd ol nl _ _ x
        ((ar.map (fun a => JValue.obj a.to_dict)).map attachmentOfJValue))
        (attachments_round aa)).trans
      (congrArg (fun y => CardModified.mk i ot nt od nd ol nl _ _ aa y)
        (attachments_round ar))

theorem cardsModified_round (l : List CardModified) :
    (l.map (fun c => JValue.obj c.to_dict)).map cardModifiedOfJValue = l := by
  induction l with
  | nil => rfl
  | cons c t ih => simp only [List.map_cons, ih, cardModified_round]

theorem nodup_dkeys_added_col (p c : BoardState) :
    (dkeys (added_col_entries p c)).Nodup := by
  unfold added_col_entries
  exact nodup_dkeys_filter _ _ (nodup_dkeys_byKey _ _ _)

theorem nodup_dkeys_removed_col (p c : BoardState) :
    (dkeys (removed_col_entries p c)).Nodup := by
  unfold removed_col_entries
  exact nodup_dkeys_filter _ _ (nodup_dkeys_byKey _ _ _)

theorem nodup_dkeys_added_card (p c : BoardState) :
    (dkeys (added_card_entries p c)).Nodup := by
  unfold added_card_entries
  exact nodup_dkeys_filter _ _ (nodup_dkeys_byKey _ _ _)

theorem nodup_dkeys_removed_card (p c : BoardState) :
    (dkeys (removed_card_entries p c)).Nodup := by
  unfold removed_card_entries
  exact nodup_dkeys_filter _ _ (nodup_dkeys_byKey _ _ _)

/-- A rename record is produced exactly when the removed and added
by-position maps agree on the position and carry the same id. -/
theorem mem_columns_renamed_iff (p c : BoardState) (r : ColumnRename) :
    r ∈ columns_renamed_of p c ↔
      dlookup (removed_by_position p c) r.position = some (r.old_name, r.id) ∧
      dlookup (added_by_position p c) r.position = some (r.new_name, r.id) := by
  constructor
  · intro h
    obtain ⟨pos, hpos, hf⟩ := List.mem_filterMap.mp h
    cases hrem : dlookup (removed_by_position p c) pos with
    | none =>
      simp only [hrem] at hf
      cases hf
    | some ov =>
      obtain ⟨onm, oi⟩ := ov
      cases hadd : dlookup (added_by_position p c) pos with
      | none =>
        simp only [hrem, hadd] at hf
        cases hf
      | some nv =>
        obtain ⟨nnm, ni⟩ := nv
        simp only [hrem, hadd] at hf
        by_cases hid : oi = ni
        · rw [if_pos hid] at hf
          injection hf with hf
          subst hf
          subst hid
          exact ⟨hrem, hadd⟩
        · rw [if_neg hid] at hf
          cases hf
  · rintro ⟨hrem, hadd⟩
    have hpos : r.position ∈ rename_positions p c := by
      rw [rename_positions, List.mem_filter]
      refine ⟨(mem_dkeys_iff_dlookup_isSome _ _).mpr (by rw [hrem]; rfl), ?_⟩
      rw [containsKey_iff_mem_dkeys]
      exact (mem_dkeys_iff_dlookup_isSome _ _).mpr (by rw [hadd]; rfl)
    refine List.mem_filterMap.mpr ⟨r.position, hpos, ?_⟩
    simp only [hrem, hadd, if_true]

/-- A card-rename record is produced exactly when the removed and added
by-id maps share the id and the two infos share the column id. -/
theorem mem_cards_renamed_iff (p c : BoardState) (r : CardRename) :
    r ∈ cards_renamed_of p c ↔
      ∃ old_info new_info,
        dlookup (removed_cards_by_id p c) r.id = some (r.old_title, old_info) ∧
        dlookup (added_cards_by_id p c) r.id = some (r.new_title, new_info) ∧
        old_info.column_id = new_info.column_id ∧ r.column = new_info.column_name := by
  constructor
  · intro h
    obtain ⟨cid, hcid, hf⟩ := List.mem_filterMap.mp h
    cases hrem : dlookup (removed_cards_by_id p c) cid with
    | none =>
      simp only [hrem] at hf
      cases hf
    | some ov =>
      obtain ⟨ot, oinfo⟩ := ov
      cases hadd : dlookup (added_cards_by_id p c) cid with
      | none =>
        simp only [hrem, hadd] at hf
        cases hf
      | some nv =>
        obtain ⟨nt, ninfo⟩ := nv
        simp only [hrem, hadd] at hf
        by_cases hcol : oinfo.column_id = ninfo.column_id
        · rw [if_pos hcol] at hf
          injection hf with hf
          subst hf
          exact ⟨oinfo, ninfo, hrem, hadd, hcol, rfl⟩
        · rw [if_neg hcol] at hf
          cases hf
  · rintro ⟨oinfo, ninfo, hrem, hadd, hcol, hcolname⟩
    have hcid : r.id ∈ renamed_card_ids p c := by
      rw [renamed_card_ids, List.mem_filter]
      refine ⟨(mem_dkeys_iff_dlookup_isSome _ _).mpr (by rw [hrem]; rfl), ?_⟩
      rw [containsKey_iff_mem_dkeys]
      exact (mem_dkeys_iff_dlookup_isSome _ _).mpr (by rw [hadd]; rfl)
    refine List.mem_filterMap.mpr ⟨r.id, hcid, ?_⟩
    simp only [hrem, hadd, if_pos hcol]
    rw [← hcolname]

theorem detect_changes_some (c p : BoardState) :
    detect_changes c (some p) =
      ⟨false, 0, 0, columns_added_of p c, columns_removed_of p c, columns_renamed_of p c,
       columns_moved_of p c, cards_added_of p c, cards_removed_of p c,
       cards_renamed_of p c, cards_moved_of p c⟩ := rfl

/-- A name occurs at most once among the removed columns, so its position
and id are determined. -/
theorem removed_by_position_name_inj (p c : BoardState) (pos pos' : Int)
    (n i i' : String)
    (h : dlookup (removed_by_position p c) pos = some (n, i))
    (h' : dlookup (removed_by_position p c) pos' = some (n, i')) :
    pos = pos' ∧ i = i' := by
  obtain ⟨hpos, hv⟩ := byKey_lookup_name_inj (removed_col_entries p c)
    (nodup_dkeys_removed_col p c) (fun e => e.2.2.position) (fun e => (e.1, e.2.1))
    (fun v => v.1) (fun e => rfl) pos pos' (n, i) (n, i') h h' rfl
  exact ⟨hpos, congrArg Prod.snd hv⟩

theorem added_by_position_name_inj (p c : BoardState) (pos pos' : Int)
    (n i i' : String)
    (h : dlookup (added_by_position p c) pos = some (n, i))
    (h' : dlookup (added_by_position p c) pos' = some (n, i')) :
    pos = pos' ∧ i = i' := by
  obtain ⟨hpos, hv⟩ := byKey_lookup_name_inj (added_col_entries p c)
    (nodup_dkeys_added_col p c) (fun e => e.2.2.position) (fun e => (e.1, e.2.1))
    (fun v => v.1) (fun e => rfl) pos pos' (n, i) (n, i') h h' rfl
  exact ⟨hpos, congrArg Prod.snd hv⟩

theorem mem_columns_added_pre_of_lookup (p c : BoardState) (pos : Int) (n i : String)
    (h : dlookup (added_by_position p c) pos = some (n, i)) :
    (⟨i, n, pos⟩ : ColumnChange) ∈ columns_added_pre p c := by
  obtain ⟨e, he, hk, hv⟩ := dlookup_byKey_some _ _ _ _ _ h
  refine List.mem_map.mpr ⟨e, he, ?_⟩
  obtain ⟨en, ei, ed⟩ := e
  simp only at hk
  injection hv with hv1 hv2
  simp only at hv1 hv2
  rw [hv1, hv2, hk]

theorem mem_columns_removed_pre_of_lookup (p c : BoardState) (pos : Int) (n i : String)
    (h : dlookup (removed_by_position p c) pos = some (n, i)) :
    (⟨i, n, pos⟩ : ColumnChange) ∈ columns_removed_pre p c := by
  obtain ⟨e, he, hk, hv⟩ := dlookup_byKey_some _ _ _ _ _ h
  refine List.mem_map.mpr ⟨e, he, ?_⟩
  obtain ⟨en, ei, ed⟩ := e
  simp only at hk
  injection hv with hv1 hv2
  simp only at hv1 hv2
  rw [hv1, hv2, hk]

/-- When the ids at a shared position differ, no rename touches that
position's old or new name. -/
theorem no_column_rename_of_ne (p c : BoardState) (pos : Int)
    (n_old i_old n_new i_new : String)
    (hrem : dlookup (removed_by_position p c) pos = some (n_old, i_old))
    (hadd : dlookup (added_by_position p c) pos = some (n_new, i_new))
    (hne : i_old ≠ i_new) :
    ∀ r ∈ columns_renamed_of p c, r.old_name ≠ n_old ∧ r.new_name ≠ n_new := by
  intro r hr
  obtain ⟨hr_rem, hr_add⟩ := (mem_columns_renamed_iff p c r).mp hr
  constructor
  · intro hold
    rw [hold] at hr_rem
    obtain ⟨hpos, hid⟩ :=
      removed_by_position_name_inj p c r.position pos n_old r.id i_old hr_rem hrem
    rw [hpos] at hr_add
    rw [hr_add] at hadd
    injection hadd with hadd
    injection hadd with h1 h2
    exact hne (hid.symm.trans h2)
  · intro hnew
    rw [hnew] at hr_add
    obtain ⟨hpos, hid⟩ :=
      added_by_position_name_inj p c r.position pos n_new r.id i_new hr_add hadd
    rw [hpos] at hr_rem
    rw [hr_rem] at hrem
    injection hrem with hrem
    injection hrem with h1 h2
    exact hne (h2.symm.trans hid)

/-- A title occurs at most once among the removed cards, so its card id
and info are determined. -/
theorem removed_cards_by_id_title_inj (p c : BoardState) (cid cid' t : String)
    (inf inf' : CardTitleInfo)
    (h : dlookup (removed_cards_by_id p c) cid = some (t, inf))
    (h' : dlookup (removed_cards_by_id p c) cid' = some (t, inf')) :
    cid = cid' ∧ inf = inf' := by
  obtain ⟨hcid, hv⟩ := byKey_lookup_name_inj (removed_card_entries p c)
    (nodup_dkeys_removed_card p c) (fun e => e.2.id) (fun e => e) (fun v => v.1)
    (fun e => rfl) cid cid' (t, inf) (t, inf') h h' rfl
  exact ⟨hcid, congrArg Prod.snd hv⟩

theorem added_cards_by_id_title_inj (p c : BoardState) (cid cid' t : String)
    (inf inf' : CardTitleInfo)
    (h : dlookup (added_cards_by_id p c) cid = some (t, inf))
    (h' : dlookup (added_cards_by_id p c) cid' = some (t, inf')) :
    cid = cid' ∧ inf = inf' := by
  obtain ⟨hcid, hv⟩ := byKey_lookup_name_inj (added_card_entries p c)
    (nodup_dkeys_added_card p c) (fun e => e.2.id) (fun e => e) (fun v => v.1)
    (fun e => rfl) cid cid' (t, inf) (t, inf') h h' rfl
  exact ⟨hcid, congrArg Prod.snd hv⟩

theorem added_cards_by_id_entry (p c : BoardState) (cid t : String) (inf : CardTitleInfo)
    (h : dlookup (added_cards_by_id p c) cid = some (t, inf)) :
    inf.id = cid ∧ (⟨cid, t, inf.column_name⟩ : CardChange) ∈ cards_added_pre p c := by
  obtain ⟨e, he, hk, hv⟩ := dlookup_byKey_some _ _ _ _ _ h
  obtain ⟨et, einf⟩ := e
  injection hv with hv1 hv2
  simp only at hk hv1 hv2
  subst hv1
  subst hv2
  refine ⟨hk, List.mem_map.mpr ⟨(et, einf), he, ?_⟩⟩
  simp only [hk]

theorem removed_cards_by_id_entry (p c : BoardState) (cid t : String) (inf : CardTitleInfo)
    (h : dlookup (removed_cards_by_id p c) cid = some (t, inf)) :
    inf.id = cid ∧ (⟨cid, t, inf.column_name⟩ : CardChange) ∈ cards_removed_pre p c := by
  obtain ⟨e, he, hk, hv⟩ := dlookup_byKey_some _ _ _ _ _ h
  obtain ⟨et, einf⟩ := e
  injection hv with hv1 hv2
  simp only at hk hv1 hv2
  subst hv1
  subst hv2
  refine ⟨hk, List.mem_map.mpr ⟨(et, einf), he, ?_⟩⟩
  simp only [hk]

/-- When the shared card id resolves to different columns, no card rename
mentions that id or either title. -/
theorem no_card_rename_of_ne (p c : BoardState) (cid t_old t_new : String)
    (info_old info_new : CardTitleInfo)
    (hrem : dlookup (removed_cards_by_id p c) cid = some (t_old, info_old))
    (hadd : dlookup (added_cards_by_id p c) cid = some (t_new, info_new))
    (hne : info_old.column_id ≠ info_new.column_id) :
    ∀ r ∈ cards_renamed_of p c,
      r.id ≠ cid ∧ r.old_title ≠ t_old ∧ r.new_title ≠ t_new := by
  intro r hr
  obtain ⟨oi, ni, hr_rem, hr_add, hcol, hcoln⟩ := (mem_cards_renamed_iff p c r).mp hr
  have hid : r.id ≠ cid := by
    intro hc
    rw [hc] at hr_rem hr_add
    rw [hr_rem] at hrem
    rw [hr_add] at hadd
    injection hrem with h1
    injection h1 with h1a h1b
    injection hadd with h2
    injection h2 with h2a h2b
    rw [← h1b, ← h2b] at hne
    exact hne hcol
  refine ⟨hid, ?_, ?_⟩
  · intro hc
    rw [hc] at hr_rem
    exact hid (removed_cards_by_id_title_inj p c r.id cid t_old oi info_old
      hr_rem hrem).1
  · intro hc
    rw [hc] at hr_add
    exact hid (added_cards_by_id_title_inj p c r.id cid t_new ni info_new
      hr_add hadd).1

/-- Rename records are determined by their old name. -/
theorem columns_renamed_old_name_inj (p c : BoardState) (r r' : ColumnRename)
    (hr : r ∈ columns_renamed_of p c) (hr' : r' ∈ columns_renamed_of p c)
    (h : r.old_name = r'.old_name) : r = r' := by
  obtain ⟨hrem, hadd⟩ := (mem_columns_renamed_iff p c r).mp hr
  obtain ⟨hrem', hadd'⟩ := (mem_columns_renamed_iff p c r').mp hr'
  rw [h] at hrem
  obtain ⟨hpos, hid⟩ := removed_by_position_name_inj p c r.position r'.position
    r'.old_name r.id r'.id hrem hrem'
  rw [hpos] at hadd
  rw [hadd'] at hadd
  injection hadd with hadd
  injection hadd with hnn hid2
  calc r = ⟨r.id, r.old_name, r.new_name, r.position⟩ := rfl
    _ = ⟨r'.id, r'.old_name, r'.new_name, r'.position⟩ := by rw [h, hpos, hid, hnn]
    _ = r' := rfl

/-- The old-to-new column-name map sends a detected rename's old name to
its new name. -/
theorem rename_map_lookup (p c : BoardState) (r : ColumnRename)
    (hr : r ∈ columns_renamed_of p c) :
    dlookup (prev_col_name_to_curr_name p c) r.old_name = some r.new_name := by
  unfold prev_col_name_to_curr_name
  rw [dlookup_foldl_dinsert (columns_renamed_of p c) (fun r => r.old_name)
    (fun r => r.new_name) _ r.old_name]
  cases hfl : find_last (fun a => a.old_name = r.old_name) (columns_renamed_of p c) with
  | some a =>
    obtain ⟨ham, hap⟩ := find_last_mem _ _ _ hfl
    have : a = r := columns_renamed_old_name_inj p c a r ham hr (by simpa using hap)
    rw [this]
  | none =>
    have := (find_last_eq_none _ _).mp hfl r hr
    simp at this

theorem mem_dkeys_iff_exists {K V : Type} (l : List (K × V)) (k : K) :
    k ∈ dkeys l ↔ ∃ e ∈ l, e.1 = k := by
  simp only [dkeys, List.mem_map]

/-- The names surviving in a post-reclassification added/removed list are
exactly the keys of one snapshot that are absent from the other and were
not reclassified as renames. -/
theorem filter_renamed_name_iff {β γ : Type} (currMap prevMap : List (String × β))
    (renNames : List String) (mkF : (String × β) → γ) (nameF : γ → String)
    (hname : ∀ e, nameF (mkF e) = e.1) (n : String) :
    (∃ a ∈ filter_renamed_items
        ((currMap.filter (fun e => ¬ containsKey prevMap e.1)).map mkF)
        renNames nameF, nameF a = n) ↔
      (n ∈ dkeys currMap ∧ n ∉ dkeys prevMap ∧ n ∉ renNames) := by
  constructor
  · rintro ⟨a, ha, hn⟩
    obtain ⟨hpre, hnot⟩ := (mem_filter_renamed_iff _ _ _ _).mp ha
    obtain ⟨e, he, hae⟩ := List.mem_map.mp hpre
    obtain ⟨hec, hpred⟩ := List.mem_filter.mp he
    have he1 : e.1 = n := by
      rw [← hn, ← hae, hname]
    have hpred' : ¬ containsKey prevMap e.1 = true := by simpa using hpred
    refine ⟨(mem_dkeys_iff_exists _ _).mpr ⟨e, hec, he1⟩, ?_, hn ▸ hnot⟩
    intro hmem
    exact hpred' (by rw [he1]; exact (containsKey_iff_mem_dkeys _ _).mpr hmem)
  · rintro ⟨hc, hp, hrn⟩
    obtain ⟨e, hec, he1⟩ := (mem_dkeys_iff_exists _ _).mp hc
    have hae : e ∈ currMap.filter (fun e => ¬ containsKey prevMap e.1) := by
      refine List.mem_filter.mpr ⟨hec, ?_⟩
      have : ¬ containsKey prevMap e.1 = true := by
        intro hcon
        exact hp (he1 ▸ (containsKey_iff_mem_dkeys _ _).mp hcon)
      simpa using this
    refine ⟨mkF e, ?_, by rw [hname, he1]⟩
    refine (mem_filter_renamed_iff _ _ _ _).mpr ⟨List.mem_map.mpr ⟨e, hae, rfl⟩, ?_⟩
    rw [hname, he1]
    exact hrn

/-- Old names of column renames come from the removed side. -/
theorem renamed_old_names_sub (p c : BoardState) (n : String)
    (h : n ∈ renamed_old_names p c) :
    n ∈ dkeys (column_name_map p) ∧ n ∉ dkeys (column_name_map c) := by
  obtain ⟨r, hr, hrn⟩ := List.mem_map.mp h
  obtain ⟨hrem, -⟩ := (mem_columns_renamed_iff p c r).mp hr
  obtain ⟨e, he, -, hv⟩ := dlookup_byKey_some _ _ _ _ _ hrem
  obtain ⟨hep, hpred⟩ := List.mem_filter.mp he
  have he1 : e.1 = n := by
    have h1 : e.1 = r.old_name := congrArg Prod.fst hv
    rw [h1, hrn]
  refine ⟨(mem_dkeys_iff_exists _ _).mpr ⟨e, hep, he1⟩, ?_⟩
  intro hmem
  have hck : containsKey (column_name_map c) e.1 = true := by
    rw [he1]; exact (containsKey_iff_mem_dkeys _ _).mpr hmem
  simp [hck] at hpred

/-- New names of column renames come from the added side. -/
theorem renamed_new_names_sub (p c : BoardState) (n : String)
    (h : n ∈ renamed_new_names p c) :
    n ∈ dkeys (column_name_map c) ∧ n ∉ dkeys (column_name_map p) := by
  obtain ⟨r, hr, hrn⟩ := List.mem_map.mp h
  obtain ⟨-, hadd⟩ := (mem_columns_renamed_iff p c r).mp hr
  obtain ⟨e, he, -, hv⟩ := dlookup_byKey_some _ _ _ _ _ hadd
  obtain ⟨hep, hpred⟩ := List.mem_filter.mp he
  have he1 : e.1 = n := by
    have h1 : e.1 = r.new_name := congrArg Prod.fst hv
    rw [h1, hrn]
  refine ⟨(mem_dkeys_iff_exists _ _).mpr ⟨e, hep, he1⟩, ?_⟩
  intro hmem
  have hck : containsKey (column_name_map p) e.1 = true := by
    rw [he1]; exact (containsKey_iff_mem_dkeys _ _).mpr hmem
  simp [hck] at hpred

/-- Old titles of card renames come from the removed side. -/
theorem renamed_old_titles_sub (p c : BoardState) (t : String)
    (h : t ∈ renamed_old_titles p c) :
    t ∈ dkeys (card_title_map p) ∧ t ∉ dkeys (card_title_map c) := by
  obtain ⟨r, hr, hrt⟩ := List.mem_map.mp h
  obtain ⟨oi, ni, hrem, -, -, -⟩ := (mem_cards_renamed_iff p c r).mp hr
  obtain ⟨e, he, -, hv⟩ := dlookup_byKey_some _ _ _ _ _ hrem
  obtain ⟨hep, hpred⟩ := List.mem_filter.mp he
  have he1 : e.1 = t := by
    have h1 : e.1 = r.old_title := congrArg Prod.fst hv
    rw [h1, hrt]
  refine ⟨(mem_dkeys_iff_exists _ _).mpr ⟨e, hep, he1⟩, ?_⟩
  intro hmem
  have hck : containsKey (card_title_map c) e.1 = true := by
    rw [he1]; exact (containsKey_iff_mem_dkeys _ _).mpr hmem
  simp [hck] at hpred

/-- New titles of card renames come from the added side. -/
theorem renamed_new_titles_sub (p c : BoardState) (t : String)
    (h : t ∈ renamed_new_titles p c) :
    t ∈ dkeys (card_title_map c) ∧ t ∉ dkeys (card_title_map p) := by
  obtain ⟨r, hr, hrt⟩ := List.mem_map.mp h
  obtain ⟨oi, ni, -, hadd, -, -⟩ := (mem_cards_renamed_iff p c r).mp hr
  obtain ⟨e, he, -, hv⟩ := dlookup_byKey_some _ _ _ _ _ hadd
  obtain ⟨hep, hpred⟩ := List.mem_filter.mp he
  have he1 : e.1 = t := by
    have h1 : e.1 = r.new_title := congrArg Prod.fst hv
    rw [h1, hrt]
  refine ⟨(mem_dkeys_iff_exists _ _).mpr ⟨e, hep, he1⟩, ?_⟩
  intro hmem
  have hck : containsKey (card_title_map p) e.1 = true := by
    rw [he1]; exact (containsKey_iff_mem_dkeys _ _).mpr hmem
  simp [hck] at hpred

/-! ## Claim theorems -/

/-- Claim C5: diffing any board state against an identical copy of itself
yields a non-first-run changeset with every collection empty (the
first-run flag, not emptiness, distinguishes the first-run case). -/
theorem claim_C5_self_diff_empty (s : BoardState) :
    detect_changes s (some s) = { is_first_run := false } := by
  have h1 := added_col_entries_self s
  have h2 := removed_col_entries_self s
  have h3 := added_card_entries_self s
  have h4 := removed_card_entries_self s
  simp only [detect_changes, columns_added_of, columns_removed_of, columns_added_pre,
    columns_removed_pre, cards_added_of, cards_removed_of, cards_added_pre,
    cards_removed_pre, h1, h2, h3, h4, List.map_nil, filter_renamed_items,
    List.isEmpty_nil, if_true, columns_moved_of_self, cards_moved_of_self,
    columns_renamed_of_self, cards_renamed_of_self, List.filter_nil, ite_self]

/-- Witness for C5 at a concrete board state. -/
theorem claim_C5_self_diff_empty_witness :
    detect_changes
        ⟨[("col1", ⟨"To Do", 0, none⟩)], [("card1", ⟨"Task 1", some "col1", some 0, ""⟩)]⟩
        (some ⟨[("col1", ⟨"To Do", 0, none⟩)],
          [("card1", ⟨"Task 1", some "col1", some 0, ""⟩)]⟩) =
      { is_first_run := false } :=
  claim_C5_self_diff_empty
    ⟨[("col1", ⟨"To Do", 0, none⟩)], [("card1", ⟨"Task 1", some "col1", some 0, ""⟩)]⟩

/-- Claim C6: comparing a normalized snapshot against no previous state
yields a first-run marker whose counts are the numbers of normalized
columns and cards, with every per-entity collection empty. -/
theorem claim_C6_first_run (data : RawBoard) :
    detect_changes (board_state_of_raw data) none =
      { is_first_run := true
        columns_count := (extract_columns data).length
        cards_count := (extract_cards data).length } := rfl

/-- Witness for C6 at a concrete raw payload. -/
theorem claim_C6_first_run_witness :
    detect_changes
        (board_state_of_raw ⟨some [⟨some "col1", some "To Do", some 0, none⟩],
          some [⟨some "card1", some "Task 1", none, some ⟨some "col1", some 0⟩⟩]⟩) none =
      { is_first_run := true
        columns_count := (extract_columns ⟨some [⟨some "col1", some "To Do", some 0, none⟩],
          some [⟨some "card1", some "Task 1", none, some ⟨some "col1", some 0⟩⟩]⟩).length
        cards_count := (extract_cards ⟨some [⟨some "col1", some "To Do", some 0, none⟩],
          some [⟨some "card1", some "Task 1", none, some ⟨some "col1", some 0⟩⟩]⟩).length } :=
  claim_C6_first_run ⟨some [⟨some "col1", some "To Do", some 0, none⟩],
    some [⟨some "card1", some "Task 1", none, some ⟨some "col1", some 0⟩⟩]⟩

/-- Claim C7 (code evaluated at the spec's cases and at the failing input):
a missing state file, an invalid-JSON state file and a JSON object lacking
a required key are all loaded as `None` with no error, but a state file
holding valid JSON that is not an object (here the document `[]`, which
also lacks every required key) escapes with an uncaught `TypeError`
instead of being treated as "no previous state". -/
theorem claim_C7_previous_state_fail_open :
    get_previous_state StoredState.missing = Except.ok none ∧
    get_previous_state StoredState.invalidJson = Except.ok none ∧
    get_previous_state (StoredState.json (JValue.obj [])) = Except.ok none ∧
    get_previous_state (StoredState.json
      (JValue.obj [("columns", JValue.null), ("cards", JValue.null)])) = Except.ok none ∧
    get_previous_state (StoredState.json
      (JValue.obj [("timestamp", JValue.null), ("columns", JValue.null)])) =
        Except.ok none ∧
    get_previous_state (StoredState.json (JValue.arr [])) =
      Except.error PyError.typeError := by
  exact ⟨rfl, rfl, rfl, rfl, rfl, rfl⟩

/-- Claim C8: normalization silently drops any column or card entry whose
identifier is missing, and defaults the optional fields — a column's name
to `""` and its position to `0`; a card's title and description to `""`
and its column reference and position to null when `kanbanPosition` is
absent. -/
theorem claim_C8_normalization_drops_and_defaults :
    (∀ (d : RawBoard) (pre post : List RawColumn) (c : RawColumn),
      c.id = none →
      extract_columns { d with lists := some (pre ++ c :: post) } =
        extract_columns { d with lists := some (pre ++ post) }) ∧
    (∀ (d : RawBoard) (pre post : List RawCard) (c : RawCard),
      c.id = none →
      extract_cards { d with cards := some (pre ++ c :: post) } =
        extract_cards { d with cards := some (pre ++ post) }) ∧
    (∀ (i : String) (color : Option String) (cardsField : Option (List RawCard)),
      i ≠ "" →
      extract_columns ⟨some [⟨some i, none, none, color⟩], cardsField⟩ =
        [(i, ⟨"", 0, color⟩)]) ∧
    (∀ (i : String) (listsField : Option (List RawColumn)),
      i ≠ "" →
      extract_cards ⟨listsField, some [⟨some i, none, none, none⟩]⟩ =
        [(i, ⟨"", none, none, ""⟩)]) := by
  refine ⟨?_, ?_, ?_, ?_⟩
  · intro d pre post c hc
    obtain ⟨cid, nm, pos, col⟩ := c
    simp only at hc
    subst hc
    simp only [extract_columns, List.foldl_append, List.foldl_cons]
  · intro d pre post c hc
    obtain ⟨cid, t, desc, kp⟩ := c
    simp only at hc
    subst hc
    simp only [extract_cards, List.foldl_append, List.foldl_cons]
  · intro i color cardsField hi
    simp [extract_columns, dinsert, hi]
  · intro i listsField hi
    simp [extract_cards, dinsert, hi]

/-- Witness for C8 at concrete inputs (the inputs of the repository's own
normalization tests). -/
theorem claim_C8_normalization_witness :
    extract_columns ⟨some [⟨none, some "Invalid Column", some 1, none⟩], none⟩ =
      extract_columns ⟨some [], none⟩ ∧
    extract_cards ⟨none, some [⟨none, some "Invalid Card", none, none⟩]⟩ =
      extract_cards ⟨none, some []⟩ ∧
    extract_columns ⟨some [⟨some "col1", none, none, some "#ff0000"⟩], none⟩ =
      [("col1", ⟨"", 0, some "#ff0000"⟩)] ∧
    extract_cards ⟨none, some [⟨some "card1", none, none, none⟩]⟩ =
      [("card1", ⟨"", none, none, ""⟩)] := by
  refine ⟨?_, ?_, ?_, ?_⟩
  · exact claim_C8_normalization_drops_and_defaults.1 ⟨some [], none⟩ [] []
      ⟨none, some "Invalid Column", some 1, none⟩ rfl
  · exact claim_C8_normalization_drops_and_defaults.2.1 ⟨none, some []⟩ [] []
      ⟨none, some "Invalid Card", none, none⟩ rfl
  · exact claim_C8_normalization_drops_and_defaults.2.2.1 "col1" (some "#ff0000") none
      (by decide)
  · exact claim_C8_normalization_drops_and_defaults.2.2.2 "card1" none (by decide)

/-- Claim C10: `ChangeSet.from_dict` is a left inverse of
`ChangeSet.to_dict` — the modified cards travel through the
`cards_changed` dictionary key, and the added/removed lists, the
first-run flag and the card count all survive the round trip. -/
theorem claim_C10_changeset_round_trip (cs : ChangeSet) :
    ChangeSet.from_dict cs.to_dict = cs := by
  obtain ⟨ca, cr, cm, f, n⟩ := cs
  show ChangeSet.mk
      ((ca.map (fun c => JValue.obj c.to_dict)).map cardAddedOfJValue)
      ((cr.map (fun c => JValue.obj c.to_dict)).map cardRemovedOfJValue)
      ((cm.map (fun c => JValue.obj c.to_dict)).map cardModifiedOfJValue) f n =
    ChangeSet.mk ca cr cm f n
  rw [cardsAdded_round, cardsRemoved_round, cardsModified_round]

/-- Witness for C10 at a concrete changeset exercising every collection. -/
theorem claim_C10_changeset_round_trip_witness :
    ChangeSet.from_dict
      (ChangeSet.to_dict
        ⟨[⟨"c1", "Task 1", "", "", some "To Do", [⟨"a1", "f.txt", "http://x", none, some 3⟩]⟩],
         [⟨"c2", "Task 2", "d", "", none, []⟩],
         [⟨"c3", "Old", "New", "", "", "", "", some "A", some "B", [], []⟩],
         false, 2⟩) =
      ⟨[⟨"c1", "Task 1", "", "", some "To Do", [⟨"a1", "f.txt", "http://x", none, some 3⟩]⟩],
       [⟨"c2", "Task 2", "d", "", none, []⟩],
       [⟨"c3", "Old", "New", "", "", "", "", some "A", some "B", [], []⟩],
       false, 2⟩ :=
  claim_C10_changeset_round_trip
    ⟨[⟨"c1", "Task 1", "", "", some "To Do", [⟨"a1", "f.txt", "http://x", none, some 3⟩]⟩],
     [⟨"c2", "Task 2", "d", "", none, []⟩],
     [⟨"c3", "Old", "New", "", "", "", "", some "A", some "B", [], []⟩],
     false, 2⟩

/-- Claim C1: when a removed column and an added column share a structural
position, they are reclassified as exactly one rename (keeping that
position and dropping both from the added/removed collections) if and only
if they carry the same column id; with differing ids the add and the
remove are both kept and no rename mentions either name. The two closed
conjuncts are the spec's concrete scenarios: `{id: X, name: "To Do",
pos: 0}` → `{id: X, name: "Doing", pos: 0}` yields exactly one rename,
while `{id: Y, ...}` yields one add plus one remove and no rename. -/
theorem claim_C1_rename_vs_replace :
    (∀ (previous current : BoardState) (pos : Int) (n_old i_old n_new i_new : String),
      dlookup (removed_by_position previous current) pos = some (n_old, i_old) →
      dlookup (added_by_position previous current) pos = some (n_new, i_new) →
      (i_old = i_new →
        (detect_changes current (some previous)).columns_renamed.filter
            (fun r => r.position == pos) = [⟨i_new, n_old, n_new, pos⟩] ∧
        (detect_changes current (some previous)).columns_added.filter
            (fun a => a.name == n_new) = [] ∧
        (detect_changes current (some previous)).columns_removed.filter
            (fun a => a.name == n_old) = []) ∧
      (i_old ≠ i_new →
        (detect_changes current (some previous)).columns_renamed.filter
            (fun r => r.old_name == n_old || r.new_name == n_new) = [] ∧
        (⟨i_new, n_new, pos⟩ : ColumnChange) ∈
          (detect_changes current (some previous)).columns_added ∧
        (⟨i_old, n_old, pos⟩ : ColumnChange) ∈
          (detect_changes current (some previous)).columns_removed)) ∧
    detect_changes ⟨[("X", ⟨"Doing", 0, none⟩)], []⟩
        (some ⟨[("X", ⟨"To Do", 0, none⟩)], []⟩) =
      { is_first_run := false
        columns_renamed := [⟨"X", "To Do", "Doing", 0⟩] } ∧
    detect_changes ⟨[("Y", ⟨"Doing", 0, none⟩)], []⟩
        (some ⟨[("X", ⟨"To Do", 0, none⟩)], []⟩) =
      { is_first_run := false
        columns_added := [⟨"Y", "Doing", 0⟩]
        columns_removed := [⟨"X", "To Do", 0⟩] } := by
  refine ⟨?_, by decide, by decide⟩
  intro p c pos n_old i_old n_new i_new hrem hadd
  constructor
  · intro hid
    subst hid
    have hr₀ : (⟨i_old, n_old, n_new, pos⟩ : ColumnRename) ∈ columns_renamed_of p c :=
      (mem_columns_renamed_iff p c _).mpr ⟨hrem, hadd⟩
    refine ⟨?_, ?_, ?_⟩
    · show (columns_renamed_of p c).filter (fun r => r.position == pos) =
        [⟨i_old, n_old, n_new, pos⟩]
      unfold columns_renamed_of
      rw [List.filter_filterMap]
      refine filterMap_eq_singleton _ _ pos (⟨i_old, n_old, n_new, pos⟩ : ColumnRename)
        (List.Nodup.filter _ (nodup_dkeys_byKey _ _ _)) ?_ ?_ ?_
      · rw [rename_positions, List.mem_filter]
        refine ⟨(mem_dkeys_iff_dlookup_isSome _ _).mpr (by rw [hrem]; rfl), ?_⟩
        rw [containsKey_iff_mem_dkeys]
        exact (mem_dkeys_iff_dlookup_isSome _ _).mpr (by rw [hadd]; rfl)
      · simp only [hrem, hadd, if_true, Option.filter]
        simp
      · intro pos' hpos' hne
        cases h1 : dlookup (removed_by_position p c) pos' with
        | none => simp only [h1, Option.filter]
        | some ov =>
          obtain ⟨onm, oi⟩ := ov
          cases h2 : dlookup (added_by_position p c) pos' with
          | none => simp only [h1, h2, Option.filter]
          | some nv =>
            obtain ⟨nnm, ni⟩ := nv
            simp only [h1, h2]
            by_cases hid' : oi = ni
            · rw [if_pos hid']
              simp only [Option.filter]
              have : (pos' == pos) = false := by
                exact beq_eq_false_iff_ne.mpr hne
              simp [this]
            · rw [if_neg hid']
              rfl
    · rw [List.filter_eq_nil_iff]
      intro a ha
      obtain ⟨-, hnot⟩ := (mem_filter_renamed_iff (columns_added_pre p c)
        (renamed_new_names p c) (fun a => a.name) a).mp ha
      simp only [beq_iff_eq]
      intro hc
      exact hnot (hc ▸ List.mem_map.mpr ⟨⟨i_old, n_old, n_new, pos⟩, hr₀, rfl⟩)
    · rw [List.filter_eq_nil_iff]
      intro a ha
      obtain ⟨-, hnot⟩ := (mem_filter_renamed_iff (columns_removed_pre p c)
        (renamed_old_names p c) (fun a => a.name) a).mp ha
      simp only [beq_iff_eq]
      intro hc
      exact hnot (hc ▸ List.mem_map.mpr ⟨⟨i_old, n_old, n_new, pos⟩, hr₀, rfl⟩)
  · intro hne
    refine ⟨?_, ?_, ?_⟩
    · rw [List.filter_eq_nil_iff]
      intro r hr
      obtain ⟨h1, h2⟩ := no_column_rename_of_ne p c pos n_old i_old n_new i_new
        hrem hadd hne r hr
      simp [beq_eq_false_iff_ne.mpr h1, beq_eq_false_iff_ne.mpr h2]
    · refine (mem_filter_renamed_iff (columns_added_pre p c)
        (renamed_new_names p c) (fun a => a.name) _).mpr
        ⟨mem_columns_added_pre_of_lookup p c pos n_new i_new hadd, ?_⟩
      intro hmem
      obtain ⟨r, hr, hrn⟩ := List.mem_map.mp hmem
      exact (no_column_rename_of_ne p c pos n_old i_old n_new i_new
        hrem hadd hne r hr).2 hrn
    · refine (mem_filter_renamed_iff (columns_removed_pre p c)
        (renamed_old_names p c) (fun a => a.name) _).mpr
        ⟨mem_columns_removed_pre_of_lookup p c pos n_old i_old hrem, ?_⟩
      intro hmem
      obtain ⟨r, hr, hrn⟩ := List.mem_map.mp hmem
      exact (no_column_rename_of_ne p c pos n_old i_old n_new i_new
        hrem hadd hne r hr).1 hrn

/-- Witness for C1: the spec's concrete rename scenario discharges the
general conjunct's hypotheses. -/
theorem claim_C1_rename_vs_replace_witness :
    (detect_changes ⟨[("X", ⟨"Doing", 0, none⟩)], []⟩
        (some ⟨[("X", ⟨"To Do", 0, none⟩)], []⟩)).columns_renamed.filter
      (fun r => r.position == 0) = [⟨"X", "To Do", "Doing", 0⟩] :=
  ((claim_C1_rename_vs_replace.1 ⟨[("X", ⟨"To Do", 0, none⟩)], []⟩
      ⟨[("X", ⟨"Doing", 0, none⟩)], []⟩ 0 "To Do" "X" "Doing" "X"
      (by decide) (by decide)).1 rfl).1

/-- Claim C2: a card id occurring both among the removed-by-title and the
added-by-title cards is reclassified as exactly one card rename (and
dropped from the added/removed collections) when both occurrences resolve
to the same column; when the columns differ, no rename carries that id and
the remove+add pair is kept. -/
theorem claim_C2_card_rename_iff_same_column (previous current : BoardState)
    (cid t_old t_new : String) (info_old info_new : CardTitleInfo)
    (hrem : dlookup (removed_cards_by_id previous current) cid = some (t_old, info_old))
    (hadd : dlookup (added_cards_by_id previous current) cid = some (t_new, info_new)) :
    (info_old.column_id = info_new.column_id →
      (detect_changes current (some previous)).cards_renamed.filter
          (fun r => r.id == cid) = [⟨cid, t_old, t_new, info_new.column_name⟩] ∧
      (detect_changes current (some previous)).cards_added.filter
          (fun a => a.title == t_new) = [] ∧
      (detect_changes current (some previous)).cards_removed.filter
          (fun a => a.title == t_old) = []) ∧
    (info_old.column_id ≠ info_new.column_id →
      (detect_changes current (some previous)).cards_renamed.filter
          (fun r => r.id == cid) = [] ∧
      (⟨cid, t_new, info_new.column_name⟩ : CardChange) ∈
        (detect_changes current (some previous)).cards_added ∧
      (⟨cid, t_old, info_old.column_name⟩ : CardChange) ∈
        (detect_changes current (some previous)).cards_removed) := by
  constructor
  · intro hcol
    have hr₀ : (⟨cid, t_old, t_new, info_new.column_name⟩ : CardRename) ∈
        cards_renamed_of previous current :=
      (mem_cards_renamed_iff previous current _).mpr
        ⟨info_old, info_new, hrem, hadd, hcol, rfl⟩
    refine ⟨?_, ?_, ?_⟩
    · show (cards_renamed_of previous current).filter (fun r => r.id == cid) =
        [⟨cid, t_old, t_new, info_new.column_name⟩]
      unfold cards_renamed_of
      rw [List.filter_filterMap]
      refine filterMap_eq_singleton _ _ cid
        (⟨cid, t_old, t_new, info_new.column_name⟩ : CardRename)
        (List.Nodup.filter _ (nodup_dkeys_byKey _ _ _)) ?_ ?_ ?_
      · rw [renamed_card_ids, List.mem_filter]
        refine ⟨(mem_dkeys_iff_dlookup_isSome _ _).mpr (by rw [hrem]; rfl), ?_⟩
        rw [containsKey_iff_mem_dkeys]
        exact (mem_dkeys_iff_dlookup_isSome _ _).mpr (by rw [hadd]; rfl)
      · simp only [hrem, hadd, if_pos hcol, Option.filter]
        simp
      · intro cid' hcid' hne
        cases h1 : dlookup (removed_cards_by_id previous current) cid' with
        | none => simp only [h1, Option.filter]
        | some ov =>
          obtain ⟨ot, oinfo⟩ := ov
          cases h2 : dlookup (added_cards_by_id previous current) cid' with
          | none => simp only [h1, h2, Option.filter]
          | some nv =>
            obtain ⟨nt, ninfo⟩ := nv
            simp only [h1, h2]
            by_cases hcol' : oinfo.column_id = ninfo.column_id
            · rw [if_pos hcol']
              simp only [Option.filter]
              simp [beq_eq_false_iff_ne.mpr hne]
            · rw [if_neg hcol']
              rfl
    · rw [List.filter_eq_nil_iff]
      intro a ha
      obtain ⟨-, hnot⟩ := (mem_filter_renamed_iff (cards_added_pre previous current)
        (renamed_new_titles previous current) (fun a => a.title) a).mp ha
      simp only [beq_iff_eq]
      intro hc
      exact hnot (hc ▸ List.mem_map.mpr
        ⟨⟨cid, t_old, t_new, info_new.column_name⟩, hr₀, rfl⟩)
    · rw [List.filter_eq_nil_iff]
      intro a ha
      obtain ⟨-, hnot⟩ := (mem_filter_renamed_iff (cards_removed_pre previous current)
        (renamed_old_titles previous current) (fun a => a.title) a).mp ha
      simp only [beq_iff_eq]
      intro hc
      exact hnot (hc ▸ List.mem_map.mpr
        ⟨⟨cid, t_old, t_new, info_new.column_name⟩, hr₀, rfl⟩)
  · intro hne
    refine ⟨?_, ?_, ?_⟩
    · rw [List.filter_eq_nil_iff]
      intro r hr
      have h1 := (no_card_rename_of_ne previous current cid t_old t_new info_old
        info_new hrem hadd hne r hr).1
      simp [beq_eq_false_iff_ne.mpr h1]
    · refine (mem_filter_renamed_iff (cards_added_pre previous current)
        (renamed_new_titles previous current) (fun a => a.title) _).mpr
        ⟨(added_cards_by_id_entry previous current cid t_new info_new hadd).2, ?_⟩
      intro hmem
      obtain ⟨r, hr, hrn⟩ := List.mem_map.mp hmem
      exact (no_card_rename_of_ne previous current cid t_old t_new info_old
        info_new hrem hadd hne r hr).2.2 hrn
    · refine (mem_filter_renamed_iff (cards_removed_pre previous current)
        (renamed_old_titles previous current) (fun a => a.title) _).mpr
        ⟨(removed_cards_by_id_entry previous current cid t_old info_old hrem).2, ?_⟩
      intro hmem
      obtain ⟨r, hr, hrn⟩ := List.mem_map.mp hmem
      exact (no_card_rename_of_ne previous current cid t_old t_new info_old
        info_new hrem hadd hne r hr).2.1 hrn

/-- Witness for C2: the card `c1` retitled inside the same column is one
rename. -/
theorem claim_C2_card_rename_iff_same_column_witness :
    (detect_changes
        ⟨[("col1", ⟨"To Do", 0, none⟩)],
         [("c1", ⟨"Task 1 renamed", some "col1", some 0, ""⟩)]⟩
        (some ⟨[("col1", ⟨"To Do", 0, none⟩)],
         [("c1", ⟨"Task 1", some "col1", some 0, ""⟩)]⟩)).cards_renamed.filter
      (fun r => r.id == "c1") = [⟨"c1", "Task 1", "Task 1 renamed", "To Do"⟩] :=
  ((claim_C2_card_rename_iff_same_column
      ⟨[("col1", ⟨"To Do", 0, none⟩)], [("c1", ⟨"Task 1", some "col1", some 0, ""⟩)]⟩
      ⟨[("col1", ⟨"To Do", 0, none⟩)],
       [("c1", ⟨"Task 1 renamed", some "col1", some 0, ""⟩)]⟩
      "c1" "Task 1" "Task 1 renamed"
      ⟨"c1", some "col1", "To Do", ⟨"Task 1", some "col1", some 0, ""⟩⟩
      ⟨"c1", some "col1", "To Do", ⟨"Task 1 renamed", some "col1", some 0, ""⟩⟩
      (by decide) (by decide)).1 rfl).1

/-- Claim C3: a card is reported as moved only when its current column
name differs from its previous column name mapped through the
old-name-to-new-name rename map; in particular a card whose title is in
both snapshots and whose owning column was detected as renamed (previous
column name = the rename's old name, current = its new name) never
appears in the moved-cards collection. -/
theorem claim_C3_move_excludes_rename_noise :
    (∀ (previous current : BoardState),
      ∀ m ∈ (detect_changes current (some previous)).cards_moved,
        m.to_column ≠ dlookupD (prev_col_name_to_curr_name previous current)
          m.from_column m.from_column) ∧
    (∀ (previous current : BoardState) (t : String) (infop infoc : CardTitleInfo)
        (r : ColumnRename),
      dlookup (card_title_map previous) t = some infop →
      dlookup (card_title_map current) t = some infoc →
      r ∈ (detect_changes current (some previous)).columns_renamed →
      infop.column_name = r.old_name →
      infoc.column_name = r.new_name →
      (detect_changes current (some previous)).cards_moved.filter
        (fun m => m.title == t) = []) := by
  constructor
  · intro p c m hm
    obtain ⟨e, he, hf⟩ := List.mem_filterMap.mp hm
    cases hcu : dlookup (card_title_map c) e.1 with
    | none =>
      simp only [hcu] at hf
      cases hf
    | some ci =>
      simp only [hcu] at hf
      by_cases hcond : ci.column_name ≠
          dlookupD (prev_col_name_to_curr_name p c) e.2.column_name e.2.column_name
      · rw [if_pos hcond] at hf
        injection hf with hf
        rw [← hf]
        exact hcond
      · rw [if_neg hcond] at hf
        cases hf
  · intro p c t infop infoc r hprev hcurr hr hold hnew
    rw [List.filter_eq_nil_iff]
    intro m hm
    simp only [beq_iff_eq]
    intro hteq
    obtain ⟨e, he, hf⟩ := List.mem_filterMap.mp hm
    cases hcu : dlookup (card_title_map c) e.1 with
    | none =>
      simp only [hcu] at hf
      cases hf
    | some ci =>
      simp only [hcu] at hf
      by_cases hcond : ci.column_name ≠
          dlookupD (prev_col_name_to_curr_name p c) e.2.column_name e.2.column_name
      · rw [if_pos hcond] at hf
        injection hf with hf
        have htitle : e.1 = t := by
          rw [← hteq, ← hf]
        subst htitle
        have hep : e ∈ card_title_map p := (List.mem_filter.mp he).1
        have hlp : dlookup (card_title_map p) e.1 = some e.2 :=
          dlookup_of_mem_nodup _ (nodup_dkeys_byKey _ _ _) _ _ (by simpa using hep)
        rw [hprev] at hlp
        injection hlp with hlp
        rw [hcurr] at hcu
        injection hcu with hcu
        have hexp : dlookupD (prev_col_name_to_curr_name p c)
            e.2.column_name e.2.column_name = r.new_name := by
          rw [← hlp, hold, dlookupD, rename_map_lookup p c r hr]
          rfl
        rw [hexp, ← hcu, hnew] at hcond
        exact hcond rfl
      · rw [if_neg hcond] at hf
        cases hf

/-- Witness for C3: a genuinely moved card violates the mapped-name
equality, and the column-renamed scenario produces no moved record for
the card. -/
theorem claim_C3_move_excludes_rename_noise_witness :
    ((⟨"card1", "Task 1", "To Do", "Done"⟩ : CardMove).to_column ≠
      dlookupD
        (prev_col_name_to_curr_name
          ⟨[("col1", ⟨"To Do", 0, none⟩), ("col2", ⟨"Done", 1, none⟩)],
           [("card1", ⟨"Task 1", some "col1", some 0, ""⟩)]⟩
          ⟨[("col1", ⟨"To Do", 0, none⟩), ("col2", ⟨"Done", 1, none⟩)],
           [("card1", ⟨"Task 1", some "col2", some 0, ""⟩)]⟩)
        "To Do" "To Do") ∧
    (detect_changes
        ⟨[("X", ⟨"Doing", 0, none⟩)], [("c1", ⟨"Task", some "X", some 0, ""⟩)]⟩
        (some ⟨[("X", ⟨"To Do", 0, none⟩)],
          [("c1", ⟨"Task", some "X", some 0, ""⟩)]⟩)).cards_moved.filter
      (fun m => m.title == "Task") = [] := by
  constructor
  · exact claim_C3_move_excludes_rename_noise.1
      ⟨[("col1", ⟨"To Do", 0, none⟩), ("col2", ⟨"Done", 1, none⟩)],
       [("card1", ⟨"Task 1", some "col1", some 0, ""⟩)]⟩
      ⟨[("col1", ⟨"To Do", 0, none⟩), ("col2", ⟨"Done", 1, none⟩)],
       [("card1", ⟨"Task 1", some "col2", some 0, ""⟩)]⟩
      ⟨"card1", "Task 1", "To Do", "Done"⟩ (by decide)
  · exact claim_C3_move_excludes_rename_noise.2
      ⟨[("X", ⟨"To Do", 0, none⟩)], [("c1", ⟨"Task", some "X", some 0, ""⟩)]⟩
      ⟨[("X", ⟨"Doing", 0, none⟩)], [("c1", ⟨"Task", some "X", some 0, ""⟩)]⟩
      "Task"
      ⟨"c1", some "X", "To Do", ⟨"Task", some "X", some 0, ""⟩⟩
      ⟨"c1", some "X", "Doing", ⟨"Task", some "X", some 0, ""⟩⟩
      ⟨"X", "To Do", "Doing", 0⟩
      (by decide) (by decide) (by decide) rfl rfl

/-- The propositional core of the five-way partition: with `a`/`b` the key
being present in the previous/current snapshot and `x`/`y` the key being a
rename's old/new key, the five classification cases cover `a ∨ b` and are
pairwise disjoint. -/
theorem partition_logic (a b x y : Prop) (hx : x → a ∧ ¬b) (hy : y → b ∧ ¬a) :
    ((a ∨ b) ↔ ((b ∧ ¬a ∧ ¬y) ∨ (a ∧ ¬b ∧ ¬x) ∨ x ∨ y ∨ (a ∧ b))) ∧
    ¬((b ∧ ¬a ∧ ¬y) ∧ (a ∧ ¬b ∧ ¬x)) ∧
    ¬((b ∧ ¬a ∧ ¬y) ∧ x) ∧
    ¬((b ∧ ¬a ∧ ¬y) ∧ y) ∧
    ¬((b ∧ ¬a ∧ ¬y) ∧ (a ∧ b)) ∧
    ¬((a ∧ ¬b ∧ ¬x) ∧ x) ∧
    ¬((a ∧ ¬b ∧ ¬x) ∧ y) ∧
    ¬((a ∧ ¬b ∧ ¬x) ∧ (a ∧ b)) ∧
    ¬(x ∧ y) ∧
    ¬(x ∧ (a ∧ b)) ∧
    ¬(y ∧ (a ∧ b)) := by
  refine ⟨⟨fun hab => ?_, fun h5 => ?_⟩, ?_, ?_, ?_, ?_, ?_, ?_, ?_, ?_, ?_, ?_⟩
  · by_cases hxx : x
    · exact Or.inr (Or.inr (Or.inl hxx))
    · by_cases hyy : y
      · exact Or.inr (Or.inr (Or.inr (Or.inl hyy)))
      · by_cases ha : a
        · by_cases hb : b
          · exact Or.inr (Or.inr (Or.inr (Or.inr ⟨ha, hb⟩)))
          · exact Or.inr (Or.inl ⟨ha, hb, hxx⟩)
        · by_cases hb : b
          · exact Or.inl ⟨hb, ha, hyy⟩
          · rcases hab with h | h
            · exact absurd h ha
            · exact absurd h hb
  · rcases h5 with h | h | h | h | h
    · exact Or.inr h.1
    · exact Or.inl h.1
    · exact Or.inl (hx h).1
    · exact Or.inr (hy h).1
    · exact Or.inl h.1
  · rintro ⟨⟨-, hna, -⟩, ⟨ha, -, -⟩⟩; exact hna ha
  · rintro ⟨⟨-, hna, -⟩, hxx⟩; exact hna (hx hxx).1
  · rintro ⟨⟨-, -, hny⟩, hyy⟩; exact hny hyy
  · rintro ⟨⟨-, hna, -⟩, ⟨ha, -⟩⟩; exact hna ha
  · rintro ⟨⟨-, -, hnx⟩, hxx⟩; exact hnx hxx
  · rintro ⟨⟨-, hnb, -⟩, hyy⟩; exact hnb (hy hyy).1
  · rintro ⟨⟨-, hnb, -⟩, ⟨-, hb⟩⟩; exact hnb hb
  · rintro ⟨hxx, hyy⟩; exact (hx hxx).2 (hy hyy).1
  · rintro ⟨hxx, ⟨-, hb⟩⟩; exact (hx hxx).2 hb
  · rintro ⟨hyy, ⟨ha, -⟩⟩; exact (hy hyy).2 ha

/-- Counterexample to C4 as stated: in the rename scenario the name
`To Do` belongs to the union of both snapshots' column keys, yet the
returned changeset's added and removed collections are empty and the name
is not common (it is absent from the current snapshot) — so
`added ∪ removed ∪ common` misses it. -/
theorem claim_C4_counterexample_rename_breaks_partition :
    containsKey (column_name_map ⟨[("X", ⟨"To Do", 0, none⟩)], []⟩) "To Do" = true ∧
    (detect_changes ⟨[("X", ⟨"Doing", 0, none⟩)], []⟩
        (some ⟨[("X", ⟨"To Do", 0, none⟩)], []⟩)).columns_added = [] ∧
    (detect_changes ⟨[("X", ⟨"Doing", 0, none⟩)], []⟩
        (some ⟨[("X", ⟨"To Do", 0, none⟩)], []⟩)).columns_removed = [] ∧
    containsKey (column_name_map ⟨[("X", ⟨"Doing", 0, none⟩)], []⟩) "To Do" = false := by
  decide

/-- Claim C4 (amended): the returned changeset's added and removed
collections, the renamed collection's old and new keys, and the common
keys form a five-way partition of the union of both snapshots' entity
keys (column names for columns, card titles for cards); the three-way
`added ∪ removed ∪ common` partition of the claim holds only in the
absence of renames, since reclassification removes a rename's old and new
key from the removed/added collections. -/
theorem claim_C4_partition_amended (previous current : BoardState) (n t : String) :
    (((n ∈ dkeys (column_name_map previous) ∨ n ∈ dkeys (column_name_map current)) ↔
        ((∃ a ∈ (detect_changes current (some previous)).columns_added, a.name = n) ∨
         (∃ a ∈ (detect_changes current (some previous)).columns_removed, a.name = n) ∨
         (∃ r ∈ (detect_changes current (some previous)).columns_renamed,
            r.old_name = n) ∨
         (∃ r ∈ (detect_changes current (some previous)).columns_renamed,
            r.new_name = n) ∨
         (n ∈ dkeys (column_name_map previous) ∧
          n ∈ dkeys (column_name_map current)))) ∧
      ¬((∃ a ∈ (detect_changes current (some previous)).columns_added, a.name = n) ∧
        (∃ a ∈ (detect_changes current (some previous)).columns_removed, a.name = n)) ∧
      ¬((∃ a ∈ (detect_changes current (some previous)).columns_added, a.name = n) ∧
        (∃ r ∈ (detect_changes current (some previous)).columns_renamed,
          r.old_name = n)) ∧
      ¬((∃ a ∈ (detect_changes current (some previous)).columns_added, a.name = n) ∧
        (∃ r ∈ (detect_changes current (some previous)).columns_renamed,
          r.new_name = n)) ∧
      ¬((∃ a ∈ (detect_changes current (some previous)).columns_added, a.name = n) ∧
        (n ∈ dkeys (column_name_map previous) ∧ n ∈ dkeys (column_name_map current))) ∧
      ¬((∃ a ∈ (detect_changes current (some previous)).columns_removed, a.name = n) ∧
        (∃ r ∈ (detect_changes current (some previous)).columns_renamed,
          r.old_name = n)) ∧
      ¬((∃ a ∈ (detect_changes current (some previous)).columns_removed, a.name = n) ∧
        (∃ r ∈ (detect_changes current (some previous)).columns_renamed,
          r.new_name = n)) ∧
      ¬((∃ a ∈ (detect_changes current (some previous)).columns_removed, a.name = n) ∧
        (n ∈ dkeys (column_name_map previous) ∧ n ∈ dkeys (column_name_map current))) ∧
      ¬((∃ r ∈ (detect_changes current (some previous)).columns_renamed,
          r.old_name = n) ∧
        (∃ r ∈ (detect_changes current (some previous)).columns_renamed,
          r.new_name = n)) ∧
      ¬((∃ r ∈ (detect_changes current (some previous)).columns_renamed,
          r.old_name = n) ∧
        (n ∈ dkeys (column_name_map previous) ∧ n ∈ dkeys (column_name_map current))) ∧
      ¬((∃ r ∈ (detect_changes current (some previous)).columns_renamed,
          r.new_name = n) ∧
        (n ∈ dkeys (column_name_map previous) ∧ n ∈ dkeys (column_name_map current)))) ∧
    (((t ∈ dkeys (card_title_map previous) ∨ t ∈ dkeys (card_title_map current)) ↔
        ((∃ a ∈ (detect_changes current (some previous)).cards_added, a.title = t) ∨
         (∃ a ∈ (detect_changes current (some previous)).cards_removed, a.title = t) ∨
         (∃ r ∈ (detect_changes current (some previous)).cards_renamed,
            r.old_title = t) ∨
         (∃ r ∈ (detect_changes current (some previous)).cards_renamed,
            r.new_title = t) ∨
         (t ∈ dkeys (card_title_map previous) ∧ t ∈ dkeys (card_title_map current)))) ∧
      ¬((∃ a ∈ (detect_changes current (some previous)).cards_added, a.title = t) ∧
        (∃ a ∈ (detect_changes current (some previous)).cards_removed, a.title = t)) ∧
      ¬((∃ a ∈ (detect_changes current (some previous)).cards_added, a.title = t) ∧
        (∃ r ∈ (detect_changes current (some previous)).cards_renamed,
          r.old_title = t)) ∧
      ¬((∃ a ∈ (detect_changes current (some previous)).cards_added, a.title = t) ∧
        (∃ r ∈ (detect_changes current (some previous)).cards_renamed,
          r.new_title = t)) ∧
      ¬((∃ a ∈ (detect_changes current (some previous)).cards_added, a.title = t) ∧
        (t ∈ dkeys (card_title_map previous) ∧ t ∈ dkeys (card_title_map current))) ∧
      ¬((∃ a ∈ (detect_changes current (some previous)).cards_removed, a.title = t) ∧
        (∃ r ∈ (detect_changes current (some previous)).cards_renamed,
          r.old_title = t)) ∧
      ¬((∃ a ∈ (detect_changes current (some previous)).cards_removed, a.title = t) ∧
        (∃ r ∈ (detect_changes current (some previous)).cards_renamed,
          r.new_title = t)) ∧
      ¬((∃ a ∈ (detect_changes current (some previous)).cards_removed, a.title = t) ∧
        (t ∈ dkeys (card_title_map previous) ∧ t ∈ dkeys (card_title_map current))) ∧
      ¬((∃ r ∈ (detect_changes current (some previous)).cards_renamed,
          r.old_title = t) ∧
        (∃ r ∈ (detect_changes current (some previous)).cards_renamed,
          r.new_title = t)) ∧
      ¬((∃ r ∈ (detect_changes current (some previous)).cards_renamed,
          r.old_title = t) ∧
        (t ∈ dkeys (card_title_map previous) ∧ t ∈ dkeys (card_title_map current))) ∧
      ¬((∃ r ∈ (detect_changes current (some previous)).cards_renamed,
          r.new_title = t) ∧
        (t ∈ dkeys (card_title_map previous) ∧ t ∈ dkeys (card_title_map current)))) := by
  have hA : (∃ a ∈ (detect_changes current (some previous)).columns_added, a.name = n) ↔
      (n ∈ dkeys (column_name_map current) ∧ n ∉ dkeys (column_name_map previous) ∧
        n ∉ renamed_new_names previous current) :=
    filter_renamed_name_iff (column_name_map current) (column_name_map previous)
      (renamed_new_names previous current)
      (fun e => (⟨e.2.1, e.1, e.2.2.position⟩ : ColumnChange)) (fun a => a.name)
      (fun e => rfl) n
  have hR : (∃ a ∈ (detect_changes current (some previous)).columns_removed,
      a.name = n) ↔
      (n ∈ dkeys (column_name_map previous) ∧ n ∉ dkeys (column_name_map current) ∧
        n ∉ renamed_old_names previous current) :=
    filter_renamed_name_iff (column_name_map previous) (column_name_map current)
      (renamed_old_names previous current)
      (fun e => (⟨e.2.1, e.1, e.2.2.position⟩ : ColumnChange)) (fun a => a.name)
      (fun e => rfl) n
  have hRO : (∃ r ∈ (detect_changes current (some previous)).columns_renamed,
      r.old_name = n) ↔ n ∈ renamed_old_names previous current := by
    constructor
    · rintro ⟨r, hr, hrn⟩
      exact List.mem_map.mpr ⟨r, hr, hrn⟩
    · intro h
      obtain ⟨r, hr, hrn⟩ := List.mem_map.mp h
      exact ⟨r, hr, hrn⟩
  have hRN : (∃ r ∈ (detect_changes current (some previous)).columns_renamed,
      r.new_name = n) ↔ n ∈ renamed_new_names previous current := by
    constructor
    · rintro ⟨r, hr, hrn⟩
      exact List.mem_map.mpr ⟨r, hr, hrn⟩
    · intro h
      obtain ⟨r, hr, hrn⟩ := List.mem_map.mp h
      exact ⟨r, hr, hrn⟩
  have hSO := renamed_old_names_sub previous current n
  have hSN := renamed_new_names_sub previous current n
  have hA' : (∃ a ∈ (detect_changes current (some previous)).cards_added,
      a.title = t) ↔
      (t ∈ dkeys (card_title_map current) ∧ t ∉ dkeys (card_title_map previous) ∧
        t ∉ renamed_new_titles previous current) :=
    filter_renamed_name_iff (card_title_map current) (card_title_map previous)
      (renamed_new_titles previous current)
      (fun e => (⟨e.2.id, e.1, e.2.column_name⟩ : CardChange)) (fun a => a.title)
      (fun e => rfl) t
  have hR' : (∃ a ∈ (detect_changes current (some previous)).cards_removed,
      a.title = t) ↔
      (t ∈ dkeys (card_title_map previous) ∧ t ∉ dkeys (card_title_map current) ∧
        t ∉ renamed_old_titles previous current) :=
    filter_renamed_name_iff (card_title_map previous) (card_title_map current)
      (renamed_old_titles previous current)
      (fun e => (⟨e.2.id, e.1, e.2.column_name⟩ : CardChange)) (fun a => a.title)
      (fun e => rfl) t
  have hRO' : (∃ r ∈ (detect_changes current (some previous)).cards_renamed,
      r.old_title = t) ↔ t ∈ renamed_old_titles previous current := by
    constructor
    · rintro ⟨r, hr, hrt⟩
      exact List.mem_map.mpr ⟨r, hr, hrt⟩
    · intro h
      obtain ⟨r, hr, hrt⟩ := List.mem_map.mp h
      exact ⟨r, hr, hrt⟩
  have hRN' : (∃ r ∈ (detect_changes current (some previous)).cards_renamed,
      r.new_title = t) ↔ t ∈ renamed_new_titles previous current := by
    constructor
    · rintro ⟨r, hr, hrt⟩
      exact List.mem_map.mpr ⟨r, hr, hrt⟩
    · intro h
      obtain ⟨r, hr, hrt⟩ := List.mem_map.mp h
      exact ⟨r, hr, hrt⟩
  have hSO' := renamed_old_titles_sub previous current t
  have hSN' := renamed_new_titles_sub previous current t
  constructor
  · rw [hA, hR, hRO, hRN]
    exact partition_logic _ _ _ _ hSO hSN
  · rw [hA', hR', hRO', hRN']
    exact partition_logic _ _ _ _ hSO' hSN'

/-- Witness for C4's amended partition at the rename scenario. -/
theorem claim_C4_partition_amended_witness :
    ("To Do" ∈ dkeys (column_name_map ⟨[("X", ⟨"To Do", 0, none⟩)], []⟩) ∨
      "To Do" ∈ dkeys (column_name_map ⟨[("X", ⟨"Doing", 0, none⟩)], []⟩)) ↔
      ((∃ a ∈ (detect_changes ⟨[("X", ⟨"Doing", 0, none⟩)], []⟩
          (some ⟨[("X", ⟨"To Do", 0, none⟩)], []⟩)).columns_added, a.name = "To Do") ∨
       (∃ a ∈ (detect_changes ⟨[("X", ⟨"Doing", 0, none⟩)], []⟩
          (some ⟨[("X", ⟨"To Do", 0, none⟩)], []⟩)).columns_removed, a.name = "To Do") ∨
       (∃ r ∈ (detect_changes ⟨[("X", ⟨"Doing", 0, none⟩)], []⟩
          (some ⟨[("X", ⟨"To Do", 0, none⟩)], []⟩)).columns_renamed,
          r.old_name = "To Do") ∨
       (∃ r ∈ (detect_changes ⟨[("X", ⟨"Doing", 0, none⟩)], []⟩
          (some ⟨[("X", ⟨"To Do", 0, none⟩)], []⟩)).columns_renamed,
          r.new_name = "To Do") ∨
       ("To Do" ∈ dkeys (column_name_map ⟨[("X", ⟨"To Do", 0, none⟩)], []⟩) ∧
        "To Do" ∈ dkeys (column_name_map ⟨[("X", ⟨"Doing", 0, none⟩)], []⟩))) :=
  (claim_C4_partition_amended ⟨[("X", ⟨"To Do", 0, none⟩)], []⟩
    ⟨[("X", ⟨"Doing", 0, none⟩)], []⟩ "To Do" "To Do").1.1

/-- Claim C9 (spec-modelled temporal store): writing the same snapshot
twice in a row leaves the persisted store unchanged on the second write —
since every entity's open version already carries the observed attributes,
no version is created, closed or modified, and the second (empty, non
first-run) changeset appends no ledger entries. -/
theorem claim_C9_second_write_noop (s : TemporalStore) (snap : StoreSnapshot)
    (cs cs₂ : StoreChangeset) (now now' : Nat)
    (hnc : (snap.cards.map (·.1)).Nodup) (hnl : (snap.lists.map (·.1)).Nodup)
    (hfr : cs₂.is_first_run = false) (ha : cs₂.cards_added = [])
    (hr : cs₂.cards_removed = []) (hm : cs₂.cards_modified = []) :
    store_write (store_write s snap cs now) snap cs₂ now' = store_write s snap cs now := by
  have hcards : write_table (write_table s.cards snap.cards now) snap.cards now' =
      write_table s.cards snap.cards now :=
    write_table_stable _ _ _ (find_open_write_table_self snap.cards s.cards now hnc)
  have hlists : write_table (write_table s.lists snap.lists now) snap.lists now' =
      write_table s.lists snap.lists now :=
    write_table_stable _ _ _ (find_open_write_table_self snap.lists s.lists now hnl)
  have hled : ledger_entries cs₂ now' = [] := by
    simp [ledger_entries, hfr, ha, hr, hm]
  simp only [store_write, hcards, hlists, hled, List.append_nil]

/-- Witness for C9: a concrete store, snapshot and changeset. -/
theorem claim_C9_second_write_noop_witness :
    store_write
      (store_write ⟨[], [], []⟩
        ⟨[("c1", ⟨some "Task", none, none, some "l1", some "To Do"⟩)],
         [("l1", ⟨"To Do", some 0, none⟩)]⟩
        ⟨false, ["c1"], [], []⟩ 1)
      ⟨[("c1", ⟨some "Task", none, none, some "l1", some "To Do"⟩)],
       [("l1", ⟨"To Do", some 0, none⟩)]⟩
      ⟨false, [], [], []⟩ 2 =
    store_write ⟨[], [], []⟩
      ⟨[("c1", ⟨some "Task", none, none, some "l1", some "To Do"⟩)],
       [("l1", ⟨"To Do", some 0, none⟩)]⟩
      ⟨false, ["c1"], [], []⟩ 1 :=
  claim_C9_second_write_noop _ _ _ _ 1 2 (by decide) (by decide) rfl rfl rfl rfl

end TaskcardsMonitor
